import Mathlib

/-!
Verification development for the replicated key-value store core
(openr KvStore). The definitions below are a shallow embedding of the
C++ source in src/openr/kvstore/KvStore.cpp; theorems settle the
behavioural claims about merge conflict resolution, ttl handling,
full-sync difference computation, the per-peer state machine, the
initialization barrier, area dispatch and self-originated key removal.
-/

namespace Openr

/-- Modelled from the spec: the INFINITE ttl sentinel
(`Constants::kTtlInfinity`, defined outside src/ as INT32_MIN).
A `ttl_ms` is "either a sentinel INFINITE or a positive remaining
lifetime in milliseconds". -/
def kTtlInfinity : Int := -2147483648

/-- Modelled from the spec: `Constants::kTtlThreshold` (outside src/),
used by `updatePublicationTtl` only when `removeAboutToExpire` is set.
Its numeric value is irrelevant to every claim proved here. -/
def kTtlThreshold : Int := 500

/-- Modelled from the spec: `Constants::kDefaultArea` is the wildcard
area id `"0"` (see the comment in `KvStore::getAreaDbOrThrow`). -/
def kDefaultArea : String := "0"

/-- `thrift::Value` — the unit of replication (KvStore.thrift tags 1-6):
version, payload (optional), originator_id, ttl_ms, ttl_version,
content_hash (optional). -/
structure TValue where
  version : Int
  originatorId : String
  value : Option String
  ttl : Int
  ttlVersion : Int
  hash : Option Int
deriving Repr, DecidableEq

/-- `std::string::compare` as implemented by libstdc++/glibc: memcmp
over the common prefix (returning the difference of the first pair of
differing bytes), then the length difference.  Only its sign and
zeroness are relied upon by the merge logic; `dumpDifference` also
tests the exact values 1 and -1 via `compareValues`. -/
def charListCompare : List Char → List Char → Int
  | [], [] => 0
  | [], _ :: t => -(1 + (t.length : Int))
  | _ :: t, [] => 1 + (t.length : Int)
  | x :: xs, y :: ys => if x = y then charListCompare xs ys else (x.toNat : Int) - (y.toNat : Int)

def strCompare (a b : String) : Int := charListCompare a.data b.data

/-- The in-memory key-value database of one area
(`std::unordered_map<std::string, thrift::Value>`), modelled as an
association list. -/
abbrev KvMap := List (String × TValue)

def kvGet (m : KvMap) (k : String) : Option TValue :=
  match m.find? (fun p => p.1 == k) with
  | some p => some p.2
  | none => none

def kvSet (m : KvMap) (k : String) (v : TValue) : KvMap :=
  match m with
  | [] => [(k, v)]
  | p :: rest => if p.1 == k then (k, v) :: rest else p :: kvSet rest k v

def kvErase (m : KvMap) (k : String) : KvMap :=
  m.filter (fun p => !(p.1 == k))

/-- Modelled from the spec: `generateHash` (LsdbUtil.cpp, outside src/)
fills `content_hash` from `(version, originator_id, payload)`.  The
claims only depend on the hash being present after a value-update, so
any executable function of the triple is adequate here. -/
def generateHash (version : Int) (originatorId : String) (value : Option String) : Int :=
  version + 31 * (originatorId.length : Int) +
    (match value with
     | some v => 1 + (v.length : Int)
     | none => 0)

/-- The two accept outcomes of `KvStore::mergeKeyValues` for one key:
`updateAllNeeded` (wholesale value-update) or `updateTtlNeeded`
(overwrite only ttl and ttlVersion). -/
inductive UpdateKind where
  | updAll
  | updTtl
deriving Repr, DecidableEq

/-- Per-key decision of `KvStore::mergeKeyValues`
(src/openr/kvstore/KvStore.cpp, lines 3856-3930), translated branch by
branch.  The outer `Option` models the C++ undefined behaviour spots:
the code dereferences `kvStoreIt` when `kvStoreIt == kvStore.end()`
(reachable with an absent key and `newVersion == myVersion == 0`), and
dereferences the stored payload optional; `none` marks that invalid
access.  `some none` is a drop, `some (some k)` is an accept. -/
def mergeDecision (current : Option TValue) (incoming : TValue) (filterOk : Bool) :
    Option (Option UpdateKind) :=
  if !filterOk then some none
  else
    -- int64_t myVersion{0}; if found, myVersion = current.version
    let myVersion : Int :=
      match current with
      | some c => c.version
      | none => 0
    -- TTL must be infinite or a positive number, else skip
    if incoming.ttl ≠ kTtlInfinity ∧ incoming.ttl ≤ 0 then some none
    -- if we get an old value just skip it
    else if incoming.version < myVersion then some none
    else
      match incoming.value with
      | some iv =>
        if myVersion < incoming.version then some (some UpdateKind.updAll)
        else
          match current with
          | none => none -- dereference of the end iterator
          | some c =>
            if 0 < strCompare incoming.originatorId c.originatorId then
              some (some UpdateKind.updAll)
            else if incoming.originatorId = c.originatorId then
              match c.value with
              | none => none -- dereference of an absent stored payload
              | some cv =>
                if 0 < strCompare iv cv then some (some UpdateKind.updAll)
                else if strCompare iv cv = 0 then
                  if c.ttlVersion < incoming.ttlVersion then some (some UpdateKind.updTtl)
                  else some none
                else some none
            else some none
      | none =>
        -- TTL-only refresh: needs an existing entry with equal version
        -- and originator and a strictly larger ttlVersion
        match current with
        | none => some none
        | some c =>
          if incoming.version = c.version ∧ incoming.originatorId = c.originatorId ∧
              c.ttlVersion < incoming.ttlVersion
          then some (some UpdateKind.updTtl)
          else some none

/-- Application of one accepted merge (KvStore.cpp lines 3944-3985):
a value-update stores the incoming record wholesale, filling the hash
when absent; a ttl-update overwrites only `ttl` and `ttlVersion`. -/
def applyMergeStep (store : KvMap) (key : String) (incoming : TValue) :
    UpdateKind → KvMap
  | UpdateKind.updAll =>
    let nv :=
      if incoming.hash.isSome then incoming
      else { incoming with
              hash := some (generateHash incoming.version incoming.originatorId incoming.value) }
    kvSet store key nv
  | UpdateKind.updTtl =>
    match kvGet store key with
    | some c => kvSet store key { c with ttl := incoming.ttl, ttlVersion := incoming.ttlVersion }
    | none => store -- unreachable: the C++ code CHECKs the entry exists

/-- `filters.has_value() ? filters->keyMatch(key, value) : true` — the
step-1 filter gate of `KvStore::mergeKeyValues`. -/
def filterOkOf (filters : Option (String → TValue → Bool)) (k : String) (v : TValue) : Bool :=
  match filters with
  | some f => f k v
  | none => true

/-- `KvStore::mergeKeyValues` (KvStore.cpp lines 3844-3995): process the
incoming pairs in order against the evolving store, returning the final
store together with the announced updates (`kvUpdates`); `none`
propagates an invalid access from `mergeDecision`. -/
def mergeKeyValues (store : KvMap) :
    List (String × TValue) → Option (String → TValue → Bool) →
    Option (KvMap × List (String × TValue))
  | [], _ => some (store, [])
  | (k, v) :: rest, filters =>
    match mergeDecision (kvGet store k) v (filterOkOf filters k v) with
    | none => none
    | some none => mergeKeyValues store rest filters
    | some (some kind) =>
      match mergeKeyValues (applyMergeStep store k v kind) rest filters with
      | none => none
      | some (stf, upds) => some (stf, (k, v) :: upds)

/-- `KvStore::compareValues` (KvStore.cpp lines 4000-4034): three-way
comparison used by the full-sync difference: version, then
originatorId, then — on content-hash equality — ttlVersion; when the
hashes cannot settle it, the raw payloads are compared if both are
present, otherwise the result is the sentinel -2 ("unknown"). -/
def compareValues (v1 v2 : TValue) : Int :=
  if v1.version ≠ v2.version then (if v2.version < v1.version then 1 else -1)
  else if v1.originatorId ≠ v2.originatorId then
    (if 0 < strCompare v1.originatorId v2.originatorId then 1 else -1)
  else if v1.hash.isSome ∧ v2.hash.isSome ∧ v1.hash = v2.hash then
    (if v1.ttlVersion ≠ v2.ttlVersion then (if v2.ttlVersion < v1.ttlVersion then 1 else -1)
     else 0)
  else
    match v1.value, v2.value with
    | some a, some b => strCompare a b
    | _, _ => -2

/-- `thrift::Publication` — wire-level delta (KvStore.thrift): key_vals,
expired_keys, node_path (`nodeIds`), optional tobe_updated_keys, area. -/
structure Publication where
  keyVals : KvMap
  expiredKeys : List String
  nodeIds : Option (List String)
  tobeUpdatedKeys : Option (List String)
  area : String
deriving Repr, DecidableEq

/-- `KvStoreDb::dumpDifference` (KvStore.cpp lines 4926-4970): walk the
union of the two key sets; a key missing on my side goes to
`tobeUpdatedKeys`, a key missing on the requester's side goes to
`keyVals`, and a common key goes to `keyVals` when `compareValues`
returns 1 or -2 and to `tobeUpdatedKeys` when it returns -1 or -2.
The C++ loop appends to the two lists per key; this is rendered as a
filterMap and a filter over the same key sequence. -/
def dumpDifference (area : String) (myKeyVal reqKeyVal : KvMap) : Publication :=
  let allKeys := (myKeyVal.map Prod.fst ++ reqKeyVal.map Prod.fst).dedup
  let keyVals := allKeys.filterMap (fun key =>
    match kvGet myKeyVal key, kvGet reqKeyVal key with
    | none, _ => none
    | some mv, none => some (key, mv)
    | some mv, some rv =>
      let rc := compareValues mv rv
      if rc = 1 ∨ rc = -2 then some (key, mv) else none)
  let tobeUpdatedKeys := allKeys.filter (fun key =>
    match kvGet myKeyVal key, kvGet reqKeyVal key with
    | none, _ => true
    | some _, none => false
    | some mv, some rv =>
      let rc := compareValues mv rv
      decide (rc = -1 ∨ rc = -2))
  { keyVals := keyVals
    expiredKeys := []
    nodeIds := none
    tobeUpdatedKeys := some tobeUpdatedKeys
    area := area }

/-- `TtlCountdownQueueEntry`: expiry instant plus the identifying
`(key, version, originatorId, ttlVersion)` of the record it counts
down for. -/
structure TtlCountdownQueueEntry where
  expiryTime : Int
  key : String
  version : Int
  originatorId : String
  ttlVersion : Int
deriving Repr, DecidableEq

/-- The guard of `KvStoreDb::updatePublicationTtl`: the publication
record at the entry's key must carry exactly the entry's version,
originatorId and ttlVersion. -/
def matchesEntry (qE : TtlCountdownQueueEntry) (k : String) (v : TValue) : Bool :=
  qE.key == k && qE.version == v.version && qE.originatorId == v.originatorId &&
    qE.ttlVersion == v.ttlVersion

/-- One countdown-queue entry's effect in
`KvStoreDb::updatePublicationTtl`: if the publication record at the
entry's key matches the entry's identity, erase it when the remaining
time is at or below the decrement (or, when `removeAboutToExpire` is
set, below the ttl threshold), otherwise set the outgoing ttl to the
remaining time minus the decrement. -/
def updatePublicationTtlStep (ttlDecr timeNow : Int) (removeAboutToExpire : Bool)
    (keyVals : KvMap) (qE : TtlCountdownQueueEntry) : KvMap :=
  match kvGet keyVals qE.key with
  | none => keyVals
  | some v =>
    -- timeLeft is qE.expiryTime - timeNow
    if ¬ (matchesEntry qE qE.key v = true) then keyVals
    else if qE.expiryTime - timeNow ≤ ttlDecr then kvErase keyVals qE.key
    else if removeAboutToExpire ∧ qE.expiryTime - timeNow < kTtlThreshold then
      kvErase keyVals qE.key
    else kvSet keyVals qE.key { v with ttl := qE.expiryTime - timeNow - ttlDecr }

/-- `KvStoreDb::updatePublicationTtl` (KvStore.cpp lines 5631-5663):
fold the step above over the ttl countdown queue. -/
def updatePublicationTtl (ttlDecr timeNow : Int) (removeAboutToExpire : Bool) :
    List TtlCountdownQueueEntry → KvMap → KvMap
  | [], keyVals => keyVals
  | qE :: rest, keyVals =>
    updatePublicationTtl ttlDecr timeNow removeAboutToExpire rest
      (updatePublicationTtlStep ttlDecr timeNow removeAboutToExpire keyVals qE)

/-- `KvStoreDb::updateTtlCountdownQueue` (KvStore.cpp lines 4827-4852,
and the identical thrift variant at 1760-1785): for every key-value of
the publication whose ttl is not INFINITE, push a countdown entry
expiring `ttl` milliseconds from now; INFINITE-ttl records enqueue
nothing. -/
def updateTtlCountdownQueue (timeNow : Int) (queue : List TtlCountdownQueueEntry)
    (pubKeyVals : KvMap) : List TtlCountdownQueueEntry :=
  queue ++ (pubKeyVals.filter (fun p => !(p.2.ttl == kTtlInfinity))).map (fun p =>
    { expiryTime := timeNow + p.2.ttl
      key := p.1
      version := p.2.version
      originatorId := p.2.originatorId
      ttlVersion := p.2.ttlVersion })

/-- Result of one `KvStoreDb::mergePublication` call: the area database
state it leaves behind and the externally visible effects (return
value, loop counter, what was handed to `floodPublication`, and the
finalize-full-sync request). -/
structure MergePubResult where
  kvStore : KvMap
  ttlCountdownQueue : List TtlCountdownQueueEntry
  pendingKeys : List (String × List String)
  kvUpdateCnt : Nat
  looped : Bool
  flooded : Option Publication
  finalizeSync : Option (List String × String)
deriving Repr, DecidableEq

/-- `KvStoreDb::mergePublication` (KvStore.cpp lines 3365-3459):
gather `tobeUpdatedKeys` plus the sender's pending keys (clearing
them), return 0 early for an empty publication with nothing to
finalize, count and drop a publication whose `nodeIds` already contain
the local node id, otherwise merge, refresh the ttl countdown queue,
flood the non-empty delta and issue the finalize-sync.  `pendingKeys`
models each peer's `pendingKeysDuringInitialization`. -/
def mergePublication (nodeId area : String) (filters : Option (String → TValue → Bool))
    (store : KvMap) (queue : List TtlCountdownQueueEntry)
    (pendingKeys : List (String × List String)) (timeNow : Int)
    (rcvdPublication : Publication) (senderId : Option String) : Option MergePubResult :=
  let tobeUpd :=
    match rcvdPublication.tobeUpdatedKeys with
    | some l => l
    | none => []
  let senderPending :=
    match senderId with
    | some s =>
      match pendingKeys.find? (fun p => p.1 == s) with
      | some p => p.2
      | none => []
    | none => []
  let keysTobeUpdated := tobeUpd ++ senderPending
  let pendingKeys' :=
    match senderId with
    | some s => pendingKeys.map (fun p => if p.1 == s then (p.1, []) else p)
    | none => pendingKeys
  let needFinalizeFullSync := senderId.isSome ∧ keysTobeUpdated ≠ []
  if rcvdPublication.keyVals = [] ∧ ¬needFinalizeFullSync then
    some { kvStore := store, ttlCountdownQueue := queue, pendingKeys := pendingKeys'
           kvUpdateCnt := 0, looped := false, flooded := none, finalizeSync := none }
  else if (match rcvdPublication.nodeIds with
           | some ids => ids.contains nodeId
           | none => false) then
    some { kvStore := store, ttlCountdownQueue := queue, pendingKeys := pendingKeys'
           kvUpdateCnt := 0, looped := true, flooded := none, finalizeSync := none }
  else
    match mergeKeyValues store rcvdPublication.keyVals filters with
    | none => none
    | some (store', upds) =>
      let deltaPublication : Publication :=
        { keyVals := upds, expiredKeys := [], nodeIds := rcvdPublication.nodeIds
          tobeUpdatedKeys := none, area := area }
      some { kvStore := store'
             ttlCountdownQueue := updateTtlCountdownQueue timeNow queue upds
             pendingKeys := pendingKeys'
             kvUpdateCnt := upds.length
             looped := false
             flooded := if upds ≠ [] then some deltaPublication else none
             finalizeSync :=
               if h : needFinalizeFullSync then
                 some (keysTobeUpdated, senderId.get (Option.isSome_iff_exists.mpr
                   (by rcases h with ⟨hs, _⟩; exact Option.isSome_iff_exists.mp hs)))
               else none }

/-- `thrift::KvStorePeerState` (KvStore.thrift line 343). -/
inductive KvStorePeerState where
  | IDLE
  | SYNCING
  | INITIALIZED
deriving Repr, DecidableEq

/-- `KvStorePeerEvent` (Types.h, outside src/): the four column indices
of the `stateMap` table in `KvStoreDb::getNextState` (KvStore.cpp lines
963-1010); the comments there name column 0 PEER_ADD, column 2
SYNC_RESP_RCVD and column 3 THRIFT_API_ERROR. -/
inductive KvStorePeerEvent where
  | PEER_ADD
  | PEER_DEL
  | SYNC_RESP_RCVD
  | THRIFT_API_ERROR
deriving Repr, DecidableEq

def peerStateToIdx : KvStorePeerState → Nat
  | KvStorePeerState.IDLE => 0
  | KvStorePeerState.SYNCING => 1
  | KvStorePeerState.INITIALIZED => 2

def peerEventToIdx : KvStorePeerEvent → Nat
  | KvStorePeerEvent.PEER_ADD => 0
  | KvStorePeerEvent.PEER_DEL => 1
  | KvStorePeerEvent.SYNC_RESP_RCVD => 2
  | KvStorePeerEvent.THRIFT_API_ERROR => 3

/-- The sparse transition matrix of `KvStoreDb::getNextState`
(KvStore.cpp lines 972-1000), row per state, column per event. -/
def stateMap : List (List (Option KvStorePeerState)) :=
  [[some KvStorePeerState.SYNCING, none, none, some KvStorePeerState.IDLE],
   [none, none, some KvStorePeerState.INITIALIZED, some KvStorePeerState.IDLE],
   [none, none, some KvStorePeerState.INITIALIZED, some KvStorePeerState.IDLE]]

/-- `KvStoreDb::getNextState` (KvStore.cpp lines 963-1010): look the
next state up in the matrix; `none` models the fatal CHECK failure for
an undefined current state or an undefined transition. -/
def getNextState (currState : Option KvStorePeerState) (event : KvStorePeerEvent) :
    Option KvStorePeerState :=
  match currState with
  | none => none
  | some s =>
    match stateMap[peerStateToIdx s]? with
    | none => none
    | some row => (row[peerEventToIdx event]?).join

/-- The slice of a `KvStorePeer` record that the initialization barrier
reads: its state and its `numThriftApiErrors` counter. -/
structure PeerSyncInfo where
  state : KvStorePeerState
  numThriftApiErrors : Nat
deriving Repr, DecidableEq

/-- One `KvStoreDb` as seen by the initialization barrier: its peer
table and its sticky `initialSyncCompleted_` flag. -/
structure AreaSyncState where
  peers : List (String × PeerSyncInfo)
  initialSyncCompleted : Bool
deriving Repr, DecidableEq

/-- The whole `KvStore` as seen by the initialization barrier: the
per-area databases, the `initialSyncSignalSent_` flag and the number of
KVSTORE_SYNCED events pushed on the updates queue. -/
structure StoreSyncState where
  areas : List (String × AreaSyncState)
  initialSyncSignalSent : Bool
  syncedEventsPublished : Nat
deriving Repr, DecidableEq

/-- The completion condition checked peer by peer in
`KvStoreDb::processInitializationEvent` (KvStore.cpp lines 2065-2096):
INITIALIZED, or at least one thrift API error. -/
def peerSyncDone (p : PeerSyncInfo) : Bool :=
  p.state == KvStorePeerState.INITIALIZED || decide (0 < p.numThriftApiErrors)

/-- `KvStoreDb::processInitializationEvent`: return early while some
peer is neither INITIALIZED nor errored, otherwise latch
`initialSyncCompleted_` (an empty peer table latches immediately). -/
def processInitializationEvent (a : AreaSyncState) : AreaSyncState :=
  if a.peers.all (fun p => peerSyncDone p.2) then { a with initialSyncCompleted := true }
  else a

/-- `KvStore::initialKvStoreDbSynced` (KvStore.cpp lines 791-810):
return unless every area database reports initial sync completed; then
publish KVSTORE_SYNCED once, guarded by `initialSyncSignalSent_`. -/
def initialKvStoreDbSynced (s : StoreSyncState) : StoreSyncState :=
  if s.areas.all (fun a => a.2.initialSyncCompleted) then
    if s.initialSyncSignalSent then s
    else { s with initialSyncSignalSent := true
                  syncedEventsPublished := s.syncedEventsPublished + 1 }
  else s

/-- One peer-event round observed by the barrier: the named area's peer
table takes a new snapshot, then — while the area has not completed —
`processInitializationEvent` runs and, when it latches completion, it
triggers the `initialKvStoreDbSynced` callback (KvStore.cpp lines
2056-2061, 2095, 2133-2136). -/
def kvStoreSyncStep (s : StoreSyncState) (ev : String × List (String × PeerSyncInfo)) :
    StoreSyncState :=
  match s.areas.find? (fun p => p.1 == ev.1) with
  | none => s
  | some (n, a) =>
    let a1 := { a with peers := ev.2 }
    if a.initialSyncCompleted then
      { s with areas := s.areas.map (fun p => if p.1 == n then (n, a1) else p) }
    else
      let a2 := processInitializationEvent a1
      let s2 := { s with areas := s.areas.map (fun p => if p.1 == n then (n, a2) else p) }
      if a2.initialSyncCompleted then initialKvStoreDbSynced s2 else s2

/-- `KvStore::getAreaDbOrThrow` (KvStore.cpp lines 215-243) over the
set of configured area ids: serve a configured area directly; for an
unconfigured area fall back to the sole configured area when there is
exactly one and either it is the default area "0" or the request names
"0"; otherwise raise KvStoreError.  The result names the area
served. -/
def getAreaDbOrThrow (configured : List String) (areaId : String) : Except String String :=
  if areaId ∈ configured then Except.ok areaId
  else if configured.length = 1 ∧ (kDefaultArea ∈ configured ∨ areaId = kDefaultArea) then
    Except.ok (configured.headD "")
  else Except.error ("Invalid area: " ++ areaId)

/-- The slice of a `KvStoreDb` touched by the self-originated key
lifecycle: the map, the self-originated cache, the pending-advertise
set, the pending-unset batch and the number of times the unset
throttle was kicked. -/
structure SelfOrigState where
  kvStore : KvMap
  selfOriginatedKeyVals : List (String × TValue)
  keysToAdvertise : List String
  keysToUnset : List (String × TValue)
  unsetThrottleKicks : Nat
deriving Repr, DecidableEq

/-- `KvStoreDb::eraseSelfOriginatedKey` (KvStore.cpp lines 1589-1596):
drop the key from the self-originated cache and from the
pending-advertise set. -/
def eraseSelfOriginatedKey (s : SelfOrigState) (key : String) : SelfOrigState :=
  { s with selfOriginatedKeyVals := s.selfOriginatedKeyVals.filter (fun p => !(p.1 == key))
           keysToAdvertise := s.keysToAdvertise.filter (fun k => !(k == key)) }

/-- `KvStoreDb::unsetSelfOriginatedKey` (KvStore.cpp lines 1561-1587):
erase the cached entry, and only when the key still exists in the
KvStore queue a tombstone (originator := self, version + 1,
ttlVersion 0, payload := the supplied value) and kick the unset
throttle. -/
def unsetSelfOriginatedKey (nodeId : String) (s : SelfOrigState) (key value : String) :
    SelfOrigState :=
  let s1 := eraseSelfOriginatedKey s key
  match kvGet s1.kvStore key with
  | none => s1
  | some cur =>
    let thriftValue := { cur with originatorId := nodeId
                                  version := cur.version + 1
                                  ttlVersion := 0
                                  value := some value }
    { s1 with keysToUnset := s1.keysToUnset ++ [(key, thriftValue)]
              unsetThrottleKicks := s1.unsetThrottleKicks + 1 }

/-! Association-list and byte-comparison helper lemmas. -/

theorem charListCompare_eq_zero_iff :
    ∀ xs ys : List Char, charListCompare xs ys = 0 ↔ xs = ys
  | [], [] => by simp [charListCompare]
  | [], y :: t => by
    simp only [charListCompare]
    apply iff_of_false
    · omega
    · simp
  | x :: t, [] => by
    simp only [charListCompare]
    apply iff_of_false
    · omega
    · simp
  | x :: xs, y :: ys => by
    simp only [charListCompare]
    by_cases h : x = y
    · rw [if_pos h]
      rw [charListCompare_eq_zero_iff xs ys]
      subst h
      simp
    · rw [if_neg h]
      constructor
      · intro hz
        have hn : x.toNat = y.toNat := by omega
        exact absurd (Char.eq_of_val_eq (UInt32.toNat.inj hn)) h
      · intro hc
        injection hc with h1 h2
        exact absurd h1 h

theorem charListCompare_pos_iff :
    ∀ xs ys : List Char, 0 < charListCompare xs ys ↔ List.Lex (· < ·) ys xs
  | [], [] => by
    apply iff_of_false
    · simp [charListCompare]
    · intro h
      cases h
  | [], y :: t => by
    apply iff_of_false
    · simp only [charListCompare]
      omega
    · intro h
      cases h
  | x :: t, [] => by
    apply iff_of_true
    · simp only [charListCompare]
      omega
    · exact List.Lex.nil
  | x :: xs, y :: ys => by
    simp only [charListCompare]
    by_cases h : x = y
    · rw [if_pos h]
      rw [charListCompare_pos_iff xs ys]
      subst h
      constructor
      · exact List.Lex.cons
      · intro h2
        cases h2 with
        | cons hh => exact hh
        | rel hr => exact absurd hr (lt_irrefl x)
    · rw [if_neg h]
      constructor
      · intro hpos
        apply List.Lex.rel
        have : y.toNat < x.toNat := by omega
        exact this
      · intro hlex
        cases hlex with
        | rel hr =>
          have : y.toNat < x.toNat := hr
          omega
        | cons hh => exact absurd rfl h

theorem strCompare_pos_iff (a b : String) : 0 < strCompare a b ↔ b < a := by
  have h2 : (b < a) ↔ List.Lex (· < ·) b.data a.data := by
    rw [String.lt_iff_toList_lt]
    exact Iff.rfl
  rw [h2]
  exact charListCompare_pos_iff a.data b.data

theorem strCompare_eq_zero_iff (a b : String) : strCompare a b = 0 ↔ a = b := by
  rw [strCompare, charListCompare_eq_zero_iff]
  constructor
  · intro h
    exact congrArg String.mk h
  · intro h
    rw [h]


theorem kvGet_cons (p : String × TValue) (m : KvMap) (k : String) :
    kvGet (p :: m) k = if p.1 == k then some p.2 else kvGet m k := by
  cases hbeq : (p.1 == k) <;> simp [kvGet, List.find?, hbeq]

theorem kvGet_kvSet_self (m : KvMap) (k : String) (v : TValue) :
    kvGet (kvSet m k v) k = some v := by
  induction m with
  | nil => simp [kvGet, kvSet, List.find?]
  | cons p rest ih =>
    simp only [kvSet]
    cases hbeq : (p.1 == k) with
    | true =>
      rw [if_pos rfl, kvGet_cons]
      simp
    | false =>
      rw [if_neg Bool.false_ne_true, kvGet_cons, hbeq]
      simpa using ih

theorem kvGet_kvSet_ne (m : KvMap) (k k' : String) (v : TValue) (h : k' ≠ k) :
    kvGet (kvSet m k v) k' = kvGet m k' := by
  have hkk : (k == k') = false := beq_eq_false_iff_ne.mpr (fun hc => h hc.symm)
  induction m with
  | nil =>
    rw [show kvSet [] k v = [(k, v)] from rfl, kvGet_cons]
    simp [hkk, kvGet]
  | cons p rest ih =>
    simp only [kvSet]
    cases hbeq : (p.1 == k) with
    | true =>
      have hp1 : p.1 = k := by simpa using hbeq
      rw [if_pos rfl, kvGet_cons, kvGet_cons, hp1]
      simp only [hkk]
      rfl
    | false =>
      rw [if_neg Bool.false_ne_true, kvGet_cons, kvGet_cons, ih]

theorem kvGet_kvErase_self (m : KvMap) (k : String) :
    kvGet (kvErase m k) k = none := by
  induction m with
  | nil => simp [kvGet, kvErase]
  | cons p rest ih =>
    rw [kvErase, List.filter_cons]
    cases hbeq : (p.1 == k) with
    | true =>
      rw [if_neg (by simp)]
      exact ih
    | false =>
      rw [if_pos (by simp), kvGet_cons, hbeq, if_neg Bool.false_ne_true]
      exact ih

theorem kvGet_kvErase_ne (m : KvMap) (k k' : String) (h : k' ≠ k) :
    kvGet (kvErase m k) k' = kvGet m k' := by
  induction m with
  | nil => simp [kvErase]
  | cons p rest ih =>
    rw [kvErase, List.filter_cons]
    cases hbeq : (p.1 == k) with
    | true =>
      have hp1 : p.1 = k := by simpa using hbeq
      have hne : (p.1 == k') = false := by
        apply beq_eq_false_iff_ne.mpr
        rw [hp1]
        exact fun hc => h hc.symm
      rw [if_neg (by simp), kvGet_cons, hne, if_neg Bool.false_ne_true]
      exact ih
    | false =>
      rw [if_pos (by simp), kvGet_cons, kvGet_cons]
      cases hbeq2 : (p.1 == k') with
      | true => rw [if_pos rfl, if_pos rfl]
      | false =>
        rw [if_neg Bool.false_ne_true, if_neg Bool.false_ne_true]
        exact ih

theorem kvGet_eq_some_iff_mem (m : KvMap) (k : String) (v : TValue)
    (hnd : (m.map Prod.fst).Nodup) : kvGet m k = some v ↔ (k, v) ∈ m := by
  induction m with
  | nil => simp [kvGet]
  | cons p rest ih =>
    rw [kvGet_cons]
    simp only [List.map_cons, List.nodup_cons] at hnd
    cases hbeq : (p.1 == k) with
    | true =>
      have hp1 : p.1 = k := by simpa using hbeq
      rw [if_pos rfl]
      constructor
      · intro hv
        have hv2 : p.2 = v := by injection hv
        rw [List.mem_cons]
        left
        rw [← hp1, ← hv2]
      · intro hv
        rw [List.mem_cons] at hv
        cases hv with
        | inl heq => rw [← heq]
        | inr hmem =>
          exfalso
          apply hnd.1
          rw [hp1]
          exact List.mem_map_of_mem Prod.fst hmem
    | false =>
      have hp1 : p.1 ≠ k := by simpa using hbeq
      rw [if_neg Bool.false_ne_true, ih hnd.2, List.mem_cons]
      constructor
      · intro hm
        exact Or.inr hm
      · intro hm
        cases hm with
        | inl heq =>
          exfalso
          apply hp1
          rw [← heq]
        | inr hmem => exact hmem

theorem kvGet_isSome_iff_mem_keys (m : KvMap) (k : String) :
    (kvGet m k).isSome = true ↔ k ∈ m.map Prod.fst := by
  induction m with
  | nil => simp [kvGet]
  | cons p rest ih =>
    rw [kvGet_cons]
    cases hbeq : (p.1 == k) with
    | true =>
      have hp1 : p.1 = k := by simpa using hbeq
      simp [hp1]
    | false =>
      have hp1 : p.1 ≠ k := by simpa using hbeq
      rw [if_neg Bool.false_ne_true]
      simp only [List.map_cons, List.mem_cons]
      rw [ih]
      constructor
      · exact Or.inr
      · intro hm
        cases hm with
        | inl heq => exact absurd heq.symm hp1
        | inr hmem => exact hmem

/-! Claim theorems. -/

/-- C7: the per-peer state transition function implements exactly the
specified table — from IDLE, PEER_ADD yields SYNCING and
THRIFT_API_ERROR yields IDLE; from SYNCING, SYNC_RESP_RCVD yields
INITIALIZED and THRIFT_API_ERROR yields IDLE; from INITIALIZED,
SYNC_RESP_RCVD yields INITIALIZED and THRIFT_API_ERROR yields IDLE;
every other (state, event) combination is undefined (a fatal CHECK,
modelled as `none`), including an undefined current state. -/
theorem c7_peer_state_machine :
    getNextState (some KvStorePeerState.IDLE) KvStorePeerEvent.PEER_ADD =
      some KvStorePeerState.SYNCING ∧
    getNextState (some KvStorePeerState.IDLE) KvStorePeerEvent.THRIFT_API_ERROR =
      some KvStorePeerState.IDLE ∧
    getNextState (some KvStorePeerState.SYNCING) KvStorePeerEvent.SYNC_RESP_RCVD =
      some KvStorePeerState.INITIALIZED ∧
    getNextState (some KvStorePeerState.SYNCING) KvStorePeerEvent.THRIFT_API_ERROR =
      some KvStorePeerState.IDLE ∧
    getNextState (some KvStorePeerState.INITIALIZED) KvStorePeerEvent.SYNC_RESP_RCVD =
      some KvStorePeerState.INITIALIZED ∧
    getNextState (some KvStorePeerState.INITIALIZED) KvStorePeerEvent.THRIFT_API_ERROR =
      some KvStorePeerState.IDLE ∧
    getNextState (some KvStorePeerState.IDLE) KvStorePeerEvent.SYNC_RESP_RCVD = none ∧
    getNextState (some KvStorePeerState.SYNCING) KvStorePeerEvent.PEER_ADD = none ∧
    getNextState (some KvStorePeerState.INITIALIZED) KvStorePeerEvent.PEER_ADD = none ∧
    getNextState (some KvStorePeerState.IDLE) KvStorePeerEvent.PEER_DEL = none ∧
    getNextState (some KvStorePeerState.SYNCING) KvStorePeerEvent.PEER_DEL = none ∧
    getNextState (some KvStorePeerState.INITIALIZED) KvStorePeerEvent.PEER_DEL = none ∧
    getNextState none KvStorePeerEvent.PEER_ADD = none ∧
    getNextState none KvStorePeerEvent.PEER_DEL = none ∧
    getNextState none KvStorePeerEvent.SYNC_RESP_RCVD = none ∧
    getNextState none KvStorePeerEvent.THRIFT_API_ERROR = none := by
  decide

/-- C9 counterexample: with `"0"` as the sole configured area, an empty
area argument is served (falls back to `"0"`), not rejected, and so is
any other unconfigured area name — refuting both the empty-area
rejection and the unconfigured-area rejection as universally stated. -/
theorem c9_counterexample :
    getAreaDbOrThrow [kDefaultArea] "" = Except.ok kDefaultArea ∧
    getAreaDbOrThrow [kDefaultArea] "unconfiguredArea" = Except.ok kDefaultArea :=
  ⟨rfl, rfl⟩

/-- C9 amended: a configured area is served directly; the wildcard "0"
is served against the sole configured area when exactly one is
configured; any other unconfigured or empty area raises KvStoreError —
except that when the sole configured area is "0" itself, every request
(empty area included) falls back to it. -/
theorem c9_area_dispatch (configured : List String) (areaId : String) :
    (areaId ∈ configured → getAreaDbOrThrow configured areaId = Except.ok areaId) ∧
    (∀ a, configured = [a] → areaId = kDefaultArea →
      getAreaDbOrThrow configured areaId = Except.ok a) ∧
    (configured = [kDefaultArea] →
      getAreaDbOrThrow configured areaId = Except.ok kDefaultArea) ∧
    (∀ a, configured = [a] → a ≠ kDefaultArea → areaId ∉ configured →
      areaId ≠ kDefaultArea →
      getAreaDbOrThrow configured areaId = Except.error ("Invalid area: " ++ areaId)) ∧
    (2 ≤ configured.length → areaId ∉ configured →
      getAreaDbOrThrow configured areaId = Except.error ("Invalid area: " ++ areaId)) := by
  refine ⟨?_, ?_, ?_, ?_, ?_⟩
  · intro hmem
    simp [getAreaDbOrThrow, hmem]
  · intro a hconf hwild
    subst hconf
    by_cases hmem : areaId ∈ [a]
    · have : areaId = a := by simpa using hmem
      simp [getAreaDbOrThrow, hmem, this]
    · simp [getAreaDbOrThrow, hmem, hwild]
  · intro hconf
    subst hconf
    by_cases hmem : areaId ∈ [kDefaultArea]
    · have : areaId = kDefaultArea := by simpa using hmem
      simp [getAreaDbOrThrow, hmem, this]
    · simp [getAreaDbOrThrow, hmem]
  · intro a hconf hnd hmem hwild
    subst hconf
    have hne : areaId ≠ a := by simpa using hmem
    have hda : kDefaultArea ≠ a := fun hc => hnd hc.symm
    simp [getAreaDbOrThrow, hne, hda, hwild]
  · intro hlen hmem
    have hlone : configured.length ≠ 1 := by omega
    simp [getAreaDbOrThrow, hmem, hlone]

/-- C9 witness: concrete dispatches through `c9_area_dispatch`: the
wildcard request on a single non-default area is served, an empty area
on a single non-default area raises, and an unconfigured area on a
multi-area node raises. -/
theorem c9_area_dispatch_witness :
    getAreaDbOrThrow ["podArea"] "0" = Except.ok "podArea" ∧
    getAreaDbOrThrow ["podArea"] "" = Except.error ("Invalid area: " ++ "") ∧
    getAreaDbOrThrow ["a1", "a2"] "a3" = Except.error ("Invalid area: " ++ "a3") :=
  ⟨(c9_area_dispatch ["podArea"] "0").2.1 "podArea" rfl rfl,
   (c9_area_dispatch ["podArea"] "").2.2.2.1 "podArea" rfl (by decide) (by decide) (by decide),
   (c9_area_dispatch ["a1", "a2"] "a3").2.2.2.2 (by decide) (by decide)⟩

/-- C10: when the key is absent from the area's KvStore,
`unsetSelfOriginatedKey` only erases the key from the self-originated
cache and from the pending-advertise set: the KvStore, the pending
tombstone batch and the unset throttle are untouched. -/
theorem c10_unset_absent_key (nodeId : String) (s : SelfOrigState) (key value : String)
    (habs : kvGet s.kvStore key = none) :
    unsetSelfOriginatedKey nodeId s key value =
      { s with
          selfOriginatedKeyVals := s.selfOriginatedKeyVals.filter (fun p => !(p.1 == key))
          keysToAdvertise := s.keysToAdvertise.filter (fun k => !(k == key)) } := by
  unfold unsetSelfOriginatedKey eraseSelfOriginatedKey
  simp [habs]

/-- C10 witness: a concrete state without the key, run through
`c10_unset_absent_key`. -/
theorem c10_unset_absent_key_witness :
    unsetSelfOriginatedKey "me"
        { kvStore := [("other", ⟨1, "me", some "x", 100, 0, none⟩)]
          selfOriginatedKeyVals := [("gone", ⟨1, "me", some "y", 100, 0, none⟩)]
          keysToAdvertise := ["gone"]
          keysToUnset := []
          unsetThrottleKicks := 0 } "gone" "tombstone" =
      { kvStore := [("other", ⟨1, "me", some "x", 100, 0, none⟩)]
        selfOriginatedKeyVals := []
        keysToAdvertise := []
        keysToUnset := []
        unsetThrottleKicks := 0 } := by
  rw [c10_unset_absent_key "me" _ "gone" "tombstone" (by decide)]
  decide

/-- C2 (code bug evidence): for an absent key, a payload-bearing
incoming value with version 0 drives `KvStore::mergeKeyValues` into
dereferencing the end iterator (`kvStoreIt->second.originatorId` with
`kvStoreIt == kvStore.end()`), modelled as the `none` outcome — the
claimed "terminates without any invalid access and accepts iff payload
present, for any version including 0" fails exactly there.  The
remaining conjuncts document the surrounding behaviour: a payload-free
refresh for an unknown key is dropped, and any version ≥ 1 with payload
is accepted as a value-update. -/
theorem c2_merge_unknown_key :
    mergeDecision none ⟨0, "nodeA", some "payload", kTtlInfinity, 0, none⟩ true = none ∧
    mergeKeyValues [] [("k", ⟨0, "nodeA", some "payload", kTtlInfinity, 0, none⟩)] none =
      none ∧
    mergeDecision none ⟨0, "nodeA", none, kTtlInfinity, 0, none⟩ true = some none ∧
    mergeDecision none ⟨1, "nodeA", some "payload", kTtlInfinity, 0, none⟩ true =
      some (some UpdateKind.updAll) ∧
    mergeDecision none ⟨1, "nodeA", none, kTtlInfinity, 0, none⟩ true = some none := by
  decide

/-- The spec's tuple order on records: version descending, then
originator_id lexicographically descending, then payload
lexicographically descending.  `pa`/`pb` are the payloads of `a`/`b`. -/
def tupleGreater (a b : TValue) (pa pb : String) : Prop :=
  b.version < a.version ∨
    (a.version = b.version ∧
      (b.originatorId < a.originatorId ∨
        (a.originatorId = b.originatorId ∧ pb < pa)))

/-- Under the step-1..3 context of the spec (the filter passes, the
incoming ttl is valid, both records carry payloads), `mergeDecision`
with an existing current record reduces to a pure tuple-order
cascade. -/
theorem mergeDecision_existing (c incoming : TValue) (iv cv : String)
    (hiv : incoming.value = some iv) (hcv : c.value = some cv)
    (httl : incoming.ttl = kTtlInfinity ∨ 0 < incoming.ttl) :
    mergeDecision (some c) incoming true =
      (if incoming.version < c.version then some none
       else if c.version < incoming.version then some (some UpdateKind.updAll)
       else if 0 < strCompare incoming.originatorId c.originatorId then
         some (some UpdateKind.updAll)
       else if incoming.originatorId = c.originatorId then
         (if 0 < strCompare iv cv then some (some UpdateKind.updAll)
          else if strCompare iv cv = 0 then
            (if c.ttlVersion < incoming.ttlVersion then some (some UpdateKind.updTtl)
             else some none)
          else some none)
       else some none) := by
  have httl2 : ¬(incoming.ttl ≠ kTtlInfinity ∧ incoming.ttl ≤ 0) := by
    rcases httl with h | h
    · exact fun hc => hc.1 h
    · exact fun hc => absurd h (by omega)
  simp only [mergeDecision, hiv, hcv, Bool.not_true, if_neg Bool.false_ne_true, if_neg httl2]

/-- Strict asymmetry of the spec's tuple order. -/
theorem tupleGreater_asymm (a b : TValue) (pa pb : String) :
    tupleGreater a b pa pb → ¬ tupleGreater b a pb pa := by
  rintro (h | ⟨he, h | ⟨heo, h⟩⟩) (h2 | ⟨he2, h2 | ⟨heo2, h2⟩⟩)
  · omega
  · omega
  · omega
  · omega
  · exact absurd h2 (asymm h)
  · rw [heo2] at h
    exact absurd h (lt_irrefl _)
  · omega
  · rw [heo] at h2
    exact absurd h2 (lt_irrefl _)
  · exact absurd h2 (asymm h)

/-- C1: with an existing current record (and under the spec's ingress
context: a passing filter, a valid ttl, payload-bearing records), the
MergeEngine replaces the record wholesale exactly when the incoming
record is strictly greater under the tuple order (version desc, then
originator desc, then payload desc); in particular it never replaces a
stored record with one that compares strictly less; and an accepted
wholesale replace stores the incoming record's version, originator,
payload, ttl and ttlVersion verbatim. -/
theorem c1_merge_no_downgrade (c incoming : TValue) (iv cv : String)
    (hiv : incoming.value = some iv) (hcv : c.value = some cv)
    (httl : incoming.ttl = kTtlInfinity ∨ 0 < incoming.ttl) :
    (mergeDecision (some c) incoming true = some (some UpdateKind.updAll) ↔
      tupleGreater incoming c iv cv) ∧
    (tupleGreater c incoming cv iv →
      mergeDecision (some c) incoming true ≠ some (some UpdateKind.updAll)) ∧
    (∀ st k, kvGet st k = some c →
      mergeDecision (some c) incoming true = some (some UpdateKind.updAll) →
      ∃ nv upds, mergeKeyValues st [(k, incoming)] none = some (kvSet st k nv, upds) ∧
        nv.version = incoming.version ∧ nv.originatorId = incoming.originatorId ∧
        nv.value = incoming.value ∧ nv.ttl = incoming.ttl ∧
        nv.ttlVersion = incoming.ttlVersion) := by
  have hiff : mergeDecision (some c) incoming true = some (some UpdateKind.updAll) ↔
      tupleGreater incoming c iv cv := by
    rw [mergeDecision_existing c incoming iv cv hiv hcv httl]
    unfold tupleGreater
    rcases lt_trichotomy incoming.version c.version with hv | hv | hv
    · rw [if_pos hv]
      apply iff_of_false
      · intro hc
        exact Option.noConfusion (Option.some.inj hc)
      · rintro (h | ⟨h, -⟩) <;> omega
    · rw [if_neg (by omega), if_neg (by omega)]
      rcases lt_trichotomy c.originatorId incoming.originatorId with ho | ho | ho
      · rw [if_pos ((strCompare_pos_iff _ _).mpr ho)]
        apply iff_of_true rfl
        exact Or.inr ⟨hv, Or.inl ho⟩
      · rw [if_neg (by
              rw [ho]
              have := (strCompare_eq_zero_iff incoming.originatorId incoming.originatorId).mpr rfl
              omega),
            if_pos ho.symm]
        rcases lt_trichotomy (strCompare iv cv) 0 with hs | hs | hs
        · rw [if_neg (by omega), if_neg (by omega)]
          apply iff_of_false
          · intro hc
            exact Option.noConfusion (Option.some.inj hc)
          · rintro (h | ⟨-, h | ⟨-, h⟩⟩)
            · omega
            · rw [ho] at h
              exact absurd h (lt_irrefl _)
            · rw [← strCompare_pos_iff] at h
              omega
        · rw [if_neg (by omega), if_pos hs]
          have hcveq : iv = cv := (strCompare_eq_zero_iff iv cv).mp hs
          apply iff_of_false
          · by_cases htv : c.ttlVersion < incoming.ttlVersion
            · rw [if_pos htv]
              intro hc
              exact UpdateKind.noConfusion (Option.some.inj (Option.some.inj hc))
            · rw [if_neg htv]
              intro hc
              exact Option.noConfusion (Option.some.inj hc)
          · rintro (h | ⟨-, h | ⟨-, h⟩⟩)
            · omega
            · rw [ho] at h
              exact absurd h (lt_irrefl _)
            · rw [hcveq] at h
              exact absurd h (lt_irrefl _)
        · rw [if_pos hs]
          apply iff_of_true rfl
          exact Or.inr ⟨hv, Or.inr ⟨ho.symm, (strCompare_pos_iff iv cv).mp hs⟩⟩
      · rw [if_neg (by rw [strCompare_pos_iff]; exact asymm ho), if_neg (ne_of_lt ho)]
        apply iff_of_false
        · intro hc
          exact Option.noConfusion (Option.some.inj hc)
        · rintro (h | ⟨-, h | ⟨h, -⟩⟩)
          · omega
          · exact absurd h (asymm ho)
          · exact absurd h (ne_of_lt ho)
    · rw [if_neg (by omega), if_pos hv]
      apply iff_of_true rfl
      exact Or.inl hv
  refine ⟨hiff, ?_, ?_⟩
  · intro hgt hc
    exact tupleGreater_asymm c incoming cv iv hgt (hiff.mp hc)
  · intro st k hst hacc
    refine ⟨(if incoming.hash.isSome then incoming
             else { incoming with
                     hash := some (generateHash incoming.version incoming.originatorId
                       incoming.value) }),
            [(k, incoming)], ?_, ?_⟩
    · simp only [mergeKeyValues, filterOkOf, hst, hacc, applyMergeStep]
    · by_cases hh : incoming.hash.isSome <;> simp [hh]

/-- C1 witness: a concrete higher-version incoming record against a
concrete stored record, accepted as a wholesale replace through
`c1_merge_no_downgrade`. -/
theorem c1_merge_no_downgrade_witness :
    mergeDecision (some ⟨2, "nodeA", some "old", 3600000, 4, some 7⟩)
        ⟨3, "nodeB", some "new", 3600000, 0, none⟩ true = some (some UpdateKind.updAll) :=
  ((c1_merge_no_downgrade ⟨2, "nodeA", some "old", 3600000, 4, some 7⟩
      ⟨3, "nodeB", some "new", 3600000, 0, none⟩ "new" "old" rfl rfl
      (Or.inr (by decide))).1).mpr (Or.inl (by decide))

/-- C3 counterexample: an incoming record with the same (key, version,
originator) as the stored one but a lexicographically greater payload
is accepted as a wholesale value-update, and it lowers the in-map
ttl_version from 5 to 0 — so for the fixed (key, version 1, originator
"nodeA") the stored ttl_version is not non-decreasing across accepts. -/
theorem c3_counterexample :
    mergeKeyValues [("k", ⟨1, "nodeA", some "pa", 100, 5, some 1⟩)]
        [("k", ⟨1, "nodeA", some "pb", 100, 0, some 2⟩)] none =
      some ([("k", ⟨1, "nodeA", some "pb", 100, 0, some 2⟩)],
            [("k", ⟨1, "nodeA", some "pb", 100, 0, some 2⟩)]) ∧
    kvGet [("k", (⟨1, "nodeA", some "pa", 100, 5, some 1⟩ : TValue))] "k" =
      some ⟨1, "nodeA", some "pa", 100, 5, some 1⟩ ∧
    kvGet [("k", (⟨1, "nodeA", some "pb", 100, 0, some 2⟩ : TValue))] "k" =
      some ⟨1, "nodeA", some "pb", 100, 0, some 2⟩ := by
  decide

/-- For an incoming record sharing the stored record's version and
originator and not changing the payload, the merge decision is a drop
or a ttl-update with a strictly larger ttlVersion — never a wholesale
replace. -/
theorem mergeDecision_fixed_tuple (c0 pv : TValue) (p0 : String) (fOk : Bool)
    (hv : pv.version = c0.version) (ho : pv.originatorId = c0.originatorId)
    (hcp : c0.value = some p0) (hpv : pv.value = none ∨ pv.value = some p0) :
    mergeDecision (some c0) pv fOk = some none ∨
      (mergeDecision (some c0) pv fOk = some (some UpdateKind.updTtl) ∧
        c0.ttlVersion < pv.ttlVersion) := by
  have hz : strCompare p0 p0 = 0 := (strCompare_eq_zero_iff p0 p0).mpr rfl
  have hoz : strCompare pv.originatorId c0.originatorId = 0 := by
    rw [ho]
    exact (strCompare_eq_zero_iff _ _).mpr rfl
  have hoz2 : strCompare c0.originatorId c0.originatorId = 0 :=
    (strCompare_eq_zero_iff _ _).mpr rfl
  cases fOk with
  | false => exact Or.inl rfl
  | true =>
    by_cases httl : pv.ttl ≠ kTtlInfinity ∧ pv.ttl ≤ 0
    · exact Or.inl (by simp [mergeDecision, httl])
    · by_cases htv : c0.ttlVersion < pv.ttlVersion
      · refine Or.inr ⟨?_, htv⟩
        rcases hpv with hval | hval <;>
          simp [mergeDecision, httl, hval, hv, ho, hoz, hoz2, hz, hcp, htv]
      · refine Or.inl ?_
        rcases hpv with hval | hval <;>
          simp [mergeDecision, httl, hval, hv, ho, hoz, hoz2, hz, hcp, htv]

/-- A merge step at a different key does not change the record at k. -/
theorem kvGet_applyMergeStep_ne (st : KvMap) (pk k : String) (pv : TValue)
    (kind : UpdateKind) (h : k ≠ pk) :
    kvGet (applyMergeStep st pk pv kind) k = kvGet st k := by
  cases kind with
  | updAll => exact kvGet_kvSet_ne _ _ _ _ h
  | updTtl =>
    unfold applyMergeStep
    cases hg : kvGet st pk with
    | none => rfl
    | some c => exact kvGet_kvSet_ne _ _ _ _ h

/-- A ttl-update at k overwrites only ttl and ttlVersion. -/
theorem applyMergeStep_updTtl (st : KvMap) (k : String) (pv c0 : TValue)
    (hc : kvGet st k = some c0) :
    applyMergeStep st k pv UpdateKind.updTtl =
      kvSet st k { c0 with ttl := pv.ttl, ttlVersion := pv.ttlVersion } := by
  unfold applyMergeStep
  rw [hc]

/-- C3 amended: for a fixed (key, version, originator), the in-map
ttl_version is non-decreasing across every sequence of MergeEngine
accepts that leaves the payload unchanged (ttl-only refreshes and
same-payload records); a wholesale value-update that changes the
payload at equal (version, originator) — the case refuted by the
counterexample — is excluded. -/
theorem c3_ttl_version_monotone (pubs : List (String × TValue))
    (filters : Option (String → TValue → Bool)) (st st' : KvMap)
    (upds : List (String × TValue)) (k : String) (v0 : Int) (o0 p0 : String) (c0 : TValue)
    (hc : kvGet st k = some c0) (hv : c0.version = v0) (ho : c0.originatorId = o0)
    (hp : c0.value = some p0)
    (hpubs : ∀ p ∈ pubs, p.1 = k →
      p.2.version = v0 ∧ p.2.originatorId = o0 ∧ (p.2.value = none ∨ p.2.value = some p0))
    (hres : mergeKeyValues st pubs filters = some (st', upds)) :
    ∃ c', kvGet st' k = some c' ∧ c'.version = v0 ∧ c'.originatorId = o0 ∧
      c'.value = some p0 ∧ c0.ttlVersion ≤ c'.ttlVersion := by
  induction pubs generalizing st c0 upds with
  | nil =>
    unfold mergeKeyValues at hres
    injection hres with hres
    injection hres with h1 h2
    exact ⟨c0, h1 ▸ hc, hv, ho, hp, le_refl _⟩
  | cons p rest ih =>
    obtain ⟨pk, pv⟩ := p
    by_cases hk : pk = k
    · subst hk
      obtain ⟨hv2, ho2, hpv2⟩ := hpubs (pk, pv) (List.mem_cons_self _ _) rfl
      rcases mergeDecision_fixed_tuple c0 pv p0 (filterOkOf filters pk pv)
          (by rw [hv2, hv]) (by rw [ho2, ho]) hp hpv2 with hdec | ⟨hdec, htv⟩
      · simp only [mergeKeyValues, hc, hdec] at hres
        exact ih st upds c0 hc hv ho hp
          (fun q hq hqk => hpubs q (List.mem_cons_of_mem _ hq) hqk) hres
      · simp only [mergeKeyValues, hc, hdec, applyMergeStep_updTtl st pk pv c0 hc] at hres
        cases hrec : mergeKeyValues
            (kvSet st pk { c0 with ttl := pv.ttl, ttlVersion := pv.ttlVersion })
            rest filters with
        | none =>
          simp only [hrec] at hres
          exact Option.noConfusion hres
        | some pr =>
          obtain ⟨stf, updsf⟩ := pr
          simp only [hrec, Option.some.injEq, Prod.mk.injEq] at hres
          obtain ⟨h1, -⟩ := hres
          rw [h1] at hrec
          obtain ⟨c', hgc, hcv, hco, hcp2, hle⟩ :=
            ih (kvSet st pk { c0 with ttl := pv.ttl, ttlVersion := pv.ttlVersion })
              updsf { c0 with ttl := pv.ttl, ttlVersion := pv.ttlVersion }
              (kvGet_kvSet_self _ _ _) hv ho hp
              (fun q hq hqk => hpubs q (List.mem_cons_of_mem _ hq) hqk) hrec
          exact ⟨c', hgc, hcv, hco, hcp2, le_trans (le_of_lt htv) hle⟩
    · cases hdec : mergeDecision (kvGet st pk) pv (filterOkOf filters pk pv) with
      | none =>
        simp only [mergeKeyValues, hdec] at hres
        exact Option.noConfusion hres
      | some o =>
        cases o with
        | none =>
          simp only [mergeKeyValues, hdec] at hres
          exact ih st upds c0 hc hv ho hp
            (fun q hq hqk => hpubs q (List.mem_cons_of_mem _ hq) hqk) hres
        | some kind =>
          simp only [mergeKeyValues, hdec] at hres
          cases hrec : mergeKeyValues (applyMergeStep st pk pv kind) rest filters with
          | none =>
            simp only [hrec] at hres
            exact Option.noConfusion hres
          | some pr =>
            obtain ⟨stf, updsf⟩ := pr
            simp only [hrec, Option.some.injEq, Prod.mk.injEq] at hres
            obtain ⟨h1, -⟩ := hres
            rw [h1] at hrec
            obtain ⟨c', hgc, hcv, hco, hcp2, hle⟩ :=
              ih (applyMergeStep st pk pv kind) updsf c0
                (by rw [kvGet_applyMergeStep_ne st pk k pv kind (Ne.symm hk)]; exact hc)
                hv ho hp (fun q hq hqk => hpubs q (List.mem_cons_of_mem _ hq) hqk) hrec
            exact ⟨c', hgc, hcv, hco, hcp2, hle⟩

/-- C3 witness: a stored record at ttl_version 2 receives a ttl-only
refresh at ttl_version 7 followed by a same-payload value echo at
ttl_version 5; through `c3_ttl_version_monotone` the final in-map
record keeps version, originator and payload and its ttl_version is at
least 2 (it is in fact 7). -/
theorem c3_ttl_version_monotone_witness :
    ∃ c', kvGet [("k", (⟨1, "nodeA", some "pa", 99, 7, some 1⟩ : TValue))] "k" = some c' ∧
      c'.version = 1 ∧ c'.originatorId = "nodeA" ∧ c'.value = some "pa" ∧
      (2 : Int) ≤ c'.ttlVersion :=
  c3_ttl_version_monotone
    [("k", ⟨1, "nodeA", none, 99, 7, none⟩), ("k", ⟨1, "nodeA", some "pa", 50, 5, some 1⟩)]
    none [("k", ⟨1, "nodeA", some "pa", 100, 2, some 1⟩)]
    [("k", ⟨1, "nodeA", some "pa", 99, 7, some 1⟩)]
    [("k", ⟨1, "nodeA", none, 99, 7, none⟩)] "k" 1 "nodeA" "pa"
    ⟨1, "nodeA", some "pa", 100, 2, some 1⟩ (by decide) rfl rfl rfl
    (by decide) (by decide)

/-- C5: an incoming publication whose node_path (`nodeIds`) already
contains the local node id is counted as a loop and dropped entirely:
the KvStore and the ttl countdown queue are unchanged, zero key-value
updates are reported, nothing is handed to `floodPublication` and no
finalize-full-sync is issued.  (The publication must carry key-values:
an empty publication with nothing to finalize returns even earlier,
counted as redundant rather than as a loop.) -/
theorem c5_loop_suppression (nodeId area : String)
    (filters : Option (String → TValue → Bool)) (store : KvMap)
    (queue : List TtlCountdownQueueEntry) (pendingKeys : List (String × List String))
    (timeNow : Int) (pub : Publication) (senderId : Option String) (ids : List String)
    (hids : pub.nodeIds = some ids) (hmem : nodeId ∈ ids) (hkv : pub.keyVals ≠ []) :
    ∃ r, mergePublication nodeId area filters store queue pendingKeys timeNow pub senderId =
        some r ∧
      r.kvStore = store ∧ r.ttlCountdownQueue = queue ∧ r.kvUpdateCnt = 0 ∧
      r.looped = true ∧ r.flooded = none ∧ r.finalizeSync = none := by
  have hcont : ids.contains nodeId = true := by simpa using hmem
  have heq : mergePublication nodeId area filters store queue pendingKeys timeNow pub senderId =
      some { kvStore := store
             ttlCountdownQueue := queue
             pendingKeys :=
               match senderId with
               | some s => pendingKeys.map (fun p => if p.1 == s then (p.1, []) else p)
               | none => pendingKeys
             kvUpdateCnt := 0
             looped := true
             flooded := none
             finalizeSync := none } := by
    unfold mergePublication
    simp only [hids]
    rw [if_neg (fun hc => hkv hc.1), if_pos hcont]
  exact ⟨_, heq, rfl, rfl, rfl, rfl, rfl, rfl⟩

/-- C5 witness: a concrete two-hop publication that already visited
node "A" is dropped by node "A" through `c5_loop_suppression`. -/
theorem c5_loop_suppression_witness :
    ∃ r, mergePublication "A" "area1" none [] [] [] 1000
        { keyVals := [("k", ⟨1, "B", some "x", 100, 0, some 1⟩)]
          expiredKeys := []
          nodeIds := some ["A", "B"]
          tobeUpdatedKeys := none
          area := "area1" } (some "B") = some r ∧
      r.kvStore = [] ∧ r.ttlCountdownQueue = [] ∧ r.kvUpdateCnt = 0 ∧
      r.looped = true ∧ r.flooded = none ∧ r.finalizeSync = none :=
  c5_loop_suppression "A" "area1" none [] [] [] 1000 _ (some "B") ["A", "B"]
    rfl (by decide) (by decide)

theorem matchesEntry_true_iff (e : TtlCountdownQueueEntry) (k : String) (v : TValue) :
    matchesEntry e k v = true ↔
      e.key = k ∧ e.version = v.version ∧ e.originatorId = v.originatorId ∧
        e.ttlVersion = v.ttlVersion := by
  simp [matchesEntry, and_assoc]

/-- `matchesEntry` ignores the record's ttl. -/
theorem matchesEntry_set_ttl (e : TtlCountdownQueueEntry) (k : String) (v : TValue) (t : Int) :
    matchesEntry e k { v with ttl := t } = matchesEntry e k v := rfl

/-- `matchesEntry` with the record's identity fixed, as a predicate on
queue entries. -/
def entryMatches (k : String) (v : TValue) (e : TtlCountdownQueueEntry) : Bool :=
  matchesEntry e k v

/-- A step for an entry that does not match the record at k leaves the
record at k unchanged. -/
theorem updatePublicationTtlStep_preserve (ttlDecr timeNow : Int) (rm : Bool)
    (pub : KvMap) (qE : TtlCountdownQueueEntry) (k : String) (v : TValue)
    (hv : kvGet pub k = some v) (hm : matchesEntry qE k v = false) :
    kvGet (updatePublicationTtlStep ttlDecr timeNow rm pub qE) k = some v := by
  by_cases hk : qE.key = k
  · simp only [updatePublicationTtlStep, hk, hv, hm]
    rw [if_pos Bool.false_ne_true]
    exact hv
  · cases hg : kvGet pub qE.key with
    | none =>
      simp only [updatePublicationTtlStep, hg]
      exact hv
    | some w =>
      simp only [updatePublicationTtlStep, hg]
      have hkk : k ≠ qE.key := fun hc => hk hc.symm
      by_cases hmw : matchesEntry qE qE.key w = true
      · rw [if_neg (fun hc => hc hmw)]
        by_cases h1 : qE.expiryTime - timeNow ≤ ttlDecr
        · rw [if_pos h1, kvGet_kvErase_ne _ _ _ hkk]
          exact hv
        · rw [if_neg h1]
          by_cases h2 : rm ∧ qE.expiryTime - timeNow < kTtlThreshold
          · rw [if_pos h2, kvGet_kvErase_ne _ _ _ hkk]
            exact hv
          · rw [if_neg h2, kvGet_kvSet_ne _ _ _ _ hkk]
            exact hv
      · rw [if_pos hmw]
        exact hv

/-- A step never resurrects an absent key. -/
theorem updatePublicationTtlStep_absent (ttlDecr timeNow : Int) (rm : Bool)
    (pub : KvMap) (qE : TtlCountdownQueueEntry) (k : String)
    (hv : kvGet pub k = none) :
    kvGet (updatePublicationTtlStep ttlDecr timeNow rm pub qE) k = none := by
  by_cases hk : qE.key = k
  · simp only [updatePublicationTtlStep, hk, hv]
  · cases hg : kvGet pub qE.key with
    | none =>
      simp only [updatePublicationTtlStep, hg]
      exact hv
    | some w =>
      simp only [updatePublicationTtlStep, hg]
      have hkk : k ≠ qE.key := fun hc => hk hc.symm
      by_cases hmw : matchesEntry qE qE.key w = true
      · rw [if_neg (fun hc => hc hmw)]
        by_cases h1 : qE.expiryTime - timeNow ≤ ttlDecr
        · rw [if_pos h1, kvGet_kvErase_ne _ _ _ hkk]
          exact hv
        · rw [if_neg h1]
          by_cases h2 : rm ∧ qE.expiryTime - timeNow < kTtlThreshold
          · rw [if_pos h2, kvGet_kvErase_ne _ _ _ hkk]
            exact hv
          · rw [if_neg h2, kvGet_kvSet_ne _ _ _ _ hkk]
            exact hv
      · rw [if_pos hmw]
        exact hv

/-- With no matching countdown entry in the queue, the record at k
survives `updatePublicationTtl` untouched. -/
theorem updatePublicationTtl_no_match (ttlDecr timeNow : Int) (rm : Bool)
    (queue : List TtlCountdownQueueEntry) (pub : KvMap) (k : String) (v : TValue)
    (hv : kvGet pub k = some v)
    (hnone : ∀ e ∈ queue, matchesEntry e k v = false) :
    kvGet (updatePublicationTtl ttlDecr timeNow rm queue pub) k = some v := by
  induction queue generalizing pub with
  | nil => exact hv
  | cons qE rest ih =>
    unfold updatePublicationTtl
    exact ih _
      (updatePublicationTtlStep_preserve ttlDecr timeNow rm pub qE k v hv
        (hnone qE (List.mem_cons_self _ _)))
      (fun e he => hnone e (List.mem_cons_of_mem _ he))

/-- An absent key stays absent through `updatePublicationTtl`. -/
theorem updatePublicationTtl_absent (ttlDecr timeNow : Int) (rm : Bool)
    (queue : List TtlCountdownQueueEntry) (pub : KvMap) (k : String)
    (hv : kvGet pub k = none) :
    kvGet (updatePublicationTtl ttlDecr timeNow rm queue pub) k = none := by
  induction queue generalizing pub with
  | nil => exact hv
  | cons qE rest ih =>
    unfold updatePublicationTtl
    exact ih _ (updatePublicationTtlStep_absent ttlDecr timeNow rm pub qE k hv)

/-- C4: outbound ttl decrement.  First part: for a publication record
with at most one live matching countdown entry, `updatePublicationTtl`
(as called on every outgoing dump, flood and finalize-sync) leaves the
record untouched when no entry matches (in particular for INFINITE-ttl
records, which by the second part never enqueue entries), erases it
exactly when its remaining time is at or below `ttl_decrement_ms`, and
otherwise sets its outgoing ttl to the remaining countdown time minus
the decrement.  Second part: every entry `updateTtlCountdownQueue`
appends comes from a record whose ttl is not INFINITE, carrying that
record's identity and the expiry instant `now + ttl`. -/
theorem c4_outbound_ttl_decrement :
    (∀ (queue : List TtlCountdownQueueEntry) (ttlDecr timeNow : Int) (pub : KvMap)
       (k : String) (v : TValue),
      kvGet pub k = some v →
      (queue.filter (entryMatches k v)).length ≤ 1 →
      ((queue.find? (entryMatches k v) = none →
         kvGet (updatePublicationTtl ttlDecr timeNow false queue pub) k = some v) ∧
       ∀ e, queue.find? (entryMatches k v) = some e →
         ((e.expiryTime - timeNow ≤ ttlDecr →
            kvGet (updatePublicationTtl ttlDecr timeNow false queue pub) k = none) ∧
          (ttlDecr < e.expiryTime - timeNow →
            kvGet (updatePublicationTtl ttlDecr timeNow false queue pub) k =
              some { v with ttl := e.expiryTime - timeNow - ttlDecr })))) ∧
    (∀ (timeNow : Int) (queue : List TtlCountdownQueueEntry) (pub : KvMap)
       (e : TtlCountdownQueueEntry),
      e ∈ updateTtlCountdownQueue timeNow queue pub → e ∉ queue →
      ∃ p, p ∈ pub ∧ p.2.ttl ≠ kTtlInfinity ∧ e.key = p.1 ∧ e.version = p.2.version ∧
        e.originatorId = p.2.originatorId ∧ e.ttlVersion = p.2.ttlVersion ∧
        e.expiryTime = timeNow + p.2.ttl) := by
  constructor
  · intro queue
    induction queue with
    | nil =>
      intro ttlDecr timeNow pub k v hv hlen
      refine ⟨fun _ => hv, fun e he => ?_⟩
      exact Option.noConfusion he
    | cons qE rest ih =>
      intro ttlDecr timeNow pub k v hv hlen
      by_cases hm : entryMatches k v qE = true
      · rw [List.find?_cons_of_pos rest hm]
        have hrest : ∀ e ∈ rest, matchesEntry e k v = false := by
          rw [List.filter_cons_of_pos hm] at hlen
          simp only [List.length_cons] at hlen
          have h0 : rest.filter (entryMatches k v) = [] :=
            List.length_eq_zero.mp (by omega)
          intro e he
          cases hq : matchesEntry e k v with
          | false => rfl
          | true =>
            have hmem : e ∈ rest.filter (entryMatches k v) :=
              List.mem_filter.mpr ⟨he, hq⟩
            rw [h0] at hmem
            exact absurd hmem (List.not_mem_nil e)
        refine ⟨fun hno => Option.noConfusion hno, fun e he => ?_⟩
        have he2 : e = qE := (Option.some.inj he).symm
        subst he2
        obtain ⟨hek, hever, heor, hettl⟩ := (matchesEntry_true_iff e k v).mp hm
        have hstep : updatePublicationTtlStep ttlDecr timeNow false pub e =
            (if e.expiryTime - timeNow ≤ ttlDecr then kvErase pub e.key
             else kvSet pub e.key { v with ttl := e.expiryTime - timeNow - ttlDecr }) := by
          simp only [updatePublicationTtlStep, hek, hv]
          rw [if_neg (fun hc => hc hm)]
          by_cases h1 : e.expiryTime - timeNow ≤ ttlDecr
          · rw [if_pos h1, if_pos h1]
          · rw [if_neg h1, if_neg h1, if_neg (by simp)]
        constructor
        · intro hle
          unfold updatePublicationTtl
          rw [hstep, if_pos hle]
          exact updatePublicationTtl_absent _ _ _ _ _ _
            (by rw [hek]; exact kvGet_kvErase_self pub k)
        · intro hgt
          unfold updatePublicationTtl
          rw [hstep, if_neg (by omega)]
          refine updatePublicationTtl_no_match _ _ _ _ _ _ _ ?_ ?_
          · rw [hek]
            exact kvGet_kvSet_self pub k _
          · intro e2 he2
            rw [matchesEntry_set_ttl]
            exact hrest e2 he2
      · have hmf : matchesEntry qE k v = false := by
          cases hq : matchesEntry qE k v with
          | false => rfl
          | true => exact absurd hq hm
        rw [List.find?_cons_of_neg rest hm]
        rw [List.filter_cons_of_neg hm] at hlen
        have hv2 : kvGet (updatePublicationTtlStep ttlDecr timeNow false pub qE) k = some v :=
          updatePublicationTtlStep_preserve ttlDecr timeNow false pub qE k v hv hmf
        have := ih ttlDecr timeNow
          (updatePublicationTtlStep ttlDecr timeNow false pub qE) k v hv2 hlen
        exact this
  · intro timeNow queue pub e hmem hnot
    unfold updateTtlCountdownQueue at hmem
    rcases List.mem_append.mp hmem with h | h
    · exact absurd h hnot
    · obtain ⟨p, hp, hpe⟩ := List.mem_map.mp h
      obtain ⟨hp1, hp2⟩ := List.mem_filter.mp hp
      refine ⟨p, hp1, by simpa using hp2, ?_, ?_, ?_, ?_, ?_⟩ <;>
        rw [← hpe]

/-- C4 witness: a record with 5000 ms on its countdown and decrement 1
leaves with ttl 4999, and a finite-ttl record enqueues exactly one
countdown entry carrying its identity; both through
`c4_outbound_ttl_decrement`. -/
theorem c4_outbound_ttl_decrement_witness :
    kvGet (updatePublicationTtl 1 0 false [⟨5000, "k", 1, "A", 0⟩]
        [("k", ⟨1, "A", some "x", 5000, 0, some 9⟩)]) "k" =
      some ⟨1, "A", some "x", 4999, 0, some 9⟩ ∧
    (∃ p, p ∈ [("k2", (⟨1, "B", some "y", 300, 0, some 3⟩ : TValue))] ∧
      p.2.ttl ≠ kTtlInfinity ∧
      (⟨400, "k2", 1, "B", 0⟩ : TtlCountdownQueueEntry).key = p.1 ∧
      (⟨400, "k2", 1, "B", 0⟩ : TtlCountdownQueueEntry).version = p.2.version ∧
      (⟨400, "k2", 1, "B", 0⟩ : TtlCountdownQueueEntry).originatorId = p.2.originatorId ∧
      (⟨400, "k2", 1, "B", 0⟩ : TtlCountdownQueueEntry).ttlVersion = p.2.ttlVersion ∧
      (⟨400, "k2", 1, "B", 0⟩ : TtlCountdownQueueEntry).expiryTime = 100 + p.2.ttl) :=
  ⟨((c4_outbound_ttl_decrement.1 [⟨5000, "k", 1, "A", 0⟩] 1 0
      [("k", ⟨1, "A", some "x", 5000, 0, some 9⟩)] "k" ⟨1, "A", some "x", 5000, 0, some 9⟩
      rfl (by decide)).2 ⟨5000, "k", 1, "A", 0⟩ (by decide)).2 (by decide),
   c4_outbound_ttl_decrement.2 100 [] [("k2", ⟨1, "B", some "y", 300, 0, some 3⟩)]
     ⟨400, "k2", 1, "B", 0⟩ (by decide) (by decide)⟩

/-- The spec's "wins the MergeEngine comparison against a hash-only
record": higher version, else higher originator, else — on content-hash
equality — higher ttl_version. -/
def valueWins (a b : TValue) : Prop :=
  b.version < a.version ∨
    (a.version = b.version ∧
      (b.originatorId < a.originatorId ∨
        (a.originatorId = b.originatorId ∧ a.hash.isSome ∧ a.hash = b.hash ∧
          b.ttlVersion < a.ttlVersion)))

/-- The comparison is indeterminate: equal version and originator but
the content hashes cannot settle it (unequal or missing), and a payload
comparison is unavailable. -/
def cmpIndeterminate (a b : TValue) : Prop :=
  a.version = b.version ∧ a.originatorId = b.originatorId ∧
    ¬(a.hash.isSome ∧ b.hash.isSome ∧ a.hash = b.hash)

/-- When at least one payload is unavailable (as on a hash-only dump),
`compareValues` returns 1 exactly when the first record wins, -1
exactly when the second wins, and -2 exactly when the comparison is
indeterminate. -/
theorem compareValues_cases (a b : TValue) (hnv : ¬(a.value.isSome ∧ b.value.isSome)) :
    (compareValues a b = 1 ↔ valueWins a b) ∧
    (compareValues a b = -1 ↔ valueWins b a) ∧
    (compareValues a b = -2 ↔ cmpIndeterminate a b) := by
  have hm2 : (match a.value, b.value with
      | some av, some bv => strCompare av bv
      | _, _ => (-2 : Int)) = -2 := by
    cases hav : a.value with
    | none => cases b.value <;> rfl
    | some av =>
      cases hbv : b.value with
      | none => rfl
      | some bv => exact absurd ⟨by rw [hav]; rfl, by rw [hbv]; rfl⟩ hnv
  unfold compareValues
  simp only [valueWins, cmpIndeterminate]
  by_cases h1 : a.version = b.version
  · rw [if_neg (fun hc => hc h1)]
    by_cases h2 : a.originatorId = b.originatorId
    · rw [if_neg (fun hc => hc h2)]
      by_cases h3 : a.hash.isSome ∧ b.hash.isSome ∧ a.hash = b.hash
      · rw [if_pos h3]
        have h3b : b.hash.isSome ∧ a.hash.isSome ∧ b.hash = a.hash :=
          ⟨h3.2.1, h3.1, h3.2.2.symm⟩
        rcases lt_trichotomy a.ttlVersion b.ttlVersion with ht | ht | ht
        · rw [if_pos (by omega), if_neg (by omega)]
          refine ⟨iff_of_false (by omega) ?_, iff_of_true rfl ?_, iff_of_false (by omega) ?_⟩
          · rintro (h | ⟨-, h | ⟨-, -, -, h⟩⟩)
            · omega
            · rw [h2] at h
              exact absurd h (lt_irrefl _)
            · omega
          · exact Or.inr ⟨h1.symm, Or.inr ⟨h2.symm, h3.2.1, h3.2.2.symm, ht⟩⟩
          · rintro ⟨-, -, h⟩
            exact h h3
        · rw [if_neg (fun hc => hc ht)]
          refine ⟨iff_of_false (by omega) ?_, iff_of_false (by omega) ?_,
            iff_of_false (by omega) ?_⟩
          · rintro (h | ⟨-, h | ⟨-, -, -, h⟩⟩)
            · omega
            · rw [h2] at h
              exact absurd h (lt_irrefl _)
            · omega
          · rintro (h | ⟨-, h | ⟨-, -, -, h⟩⟩)
            · omega
            · rw [h2] at h
              exact absurd h (lt_irrefl _)
            · omega
          · rintro ⟨-, -, h⟩
            exact h h3
        · rw [if_pos (by omega), if_pos ht]
          refine ⟨iff_of_true rfl ?_, iff_of_false (by omega) ?_, iff_of_false (by omega) ?_⟩
          · exact Or.inr ⟨h1, Or.inr ⟨h2, h3.1, h3.2.2, ht⟩⟩
          · rintro (h | ⟨-, h | ⟨-, -, -, h⟩⟩)
            · omega
            · rw [h2] at h
              exact absurd h (lt_irrefl _)
            · omega
          · rintro ⟨-, -, h⟩
            exact h h3
      · rw [if_neg h3, hm2]
        have h3b : ¬(b.hash.isSome ∧ a.hash.isSome ∧ b.hash = a.hash) := by
          rintro ⟨hb, ha, he⟩
          exact h3 ⟨ha, hb, he.symm⟩
        refine ⟨iff_of_false (by omega) ?_, iff_of_false (by omega) ?_,
          iff_of_true rfl ⟨h1, h2, h3⟩⟩
        · rintro (h | ⟨-, h | ⟨-, hsomeA, hh, -⟩⟩)
          · omega
          · rw [h2] at h
            exact absurd h (lt_irrefl _)
          · exact h3 ⟨hsomeA, by rw [← hh]; exact hsomeA, hh⟩
        · rintro (h | ⟨-, h | ⟨-, hsomeB, hh, -⟩⟩)
          · omega
          · rw [h2] at h
            exact absurd h (lt_irrefl _)
          · exact h3b ⟨hsomeB, by rw [← hh]; exact hsomeB, hh⟩
    · rw [if_pos h2]
      rcases lt_trichotomy a.originatorId b.originatorId with ho | ho | ho
      · rw [if_neg (by rw [strCompare_pos_iff]; exact asymm ho)]
        refine ⟨iff_of_false (by omega) ?_, iff_of_true rfl ?_, iff_of_false (by omega) ?_⟩
        · rintro (h | ⟨-, h | ⟨he, -⟩⟩)
          · omega
          · exact absurd h (asymm ho)
          · exact h2 he
        · exact Or.inr ⟨h1.symm, Or.inl ho⟩
        · rintro ⟨-, he, -⟩
          exact h2 he
      · exact absurd ho h2
      · rw [if_pos ((strCompare_pos_iff _ _).mpr ho)]
        refine ⟨iff_of_true rfl ?_, iff_of_false (by omega) ?_, iff_of_false (by omega) ?_⟩
        · exact Or.inr ⟨h1, Or.inl ho⟩
        · rintro (h | ⟨-, h | ⟨he, -⟩⟩)
          · omega
          · exact absurd h (asymm ho)
          · exact h2 he.symm
        · rintro ⟨-, he, -⟩
          exact h2 he
  · rw [if_pos h1]
    rcases lt_trichotomy a.version b.version with hv | hv | hv
    · rw [if_neg (by omega)]
      refine ⟨iff_of_false (by omega) ?_, iff_of_true rfl ?_, iff_of_false (by omega) ?_⟩
      · rintro (h | ⟨h, -⟩) <;> omega
      · exact Or.inl hv
      · rintro ⟨h, -⟩
        exact h1 h
    · exact absurd hv h1
    · rw [if_pos hv]
      refine ⟨iff_of_true rfl ?_, iff_of_false (by omega) ?_, iff_of_false (by omega) ?_⟩
      · exact Or.inl hv
      · rintro (h | ⟨h, -⟩) <;> omega
      · rintro ⟨h, -⟩
        exact h1 h

/-- C6 counterexample: responder and initiator hold the same (key,
version 1, originator "A") with different content hashes and the
initiator's dump is hash-only, so the comparison is indeterminate (-2):
neither record wins, yet the responder's `dumpDifference` places the
key both in `key_vals` and in `tobe_updated_keys` — refuting "key_vals
contains exactly the keys where the key is absent from the initiator's
set or the responder wins" (and the same exactness for
`tobe_updated_keys`). -/
theorem c6_counterexample :
    ("k", (⟨1, "A", some "x", 1, 0, some 1⟩ : TValue)) ∈
      (dumpDifference "a" [("k", ⟨1, "A", some "x", 1, 0, some 1⟩)]
        [("k", ⟨1, "A", none, 1, 0, some 2⟩)]).keyVals ∧
    (dumpDifference "a" [("k", ⟨1, "A", some "x", 1, 0, some 1⟩)]
        [("k", ⟨1, "A", none, 1, 0, some 2⟩)]).tobeUpdatedKeys = some ["k"] ∧
    kvGet [("k", (⟨1, "A", none, 1, 0, some 2⟩ : TValue))] "k" =
      some ⟨1, "A", none, 1, 0, some 2⟩ ∧
    ¬ valueWins ⟨1, "A", some "x", 1, 0, some 1⟩ ⟨1, "A", none, 1, 0, some 2⟩ ∧
    ¬ valueWins ⟨1, "A", none, 1, 0, some 2⟩ ⟨1, "A", some "x", 1, 0, some 1⟩ := by
  refine ⟨by decide, by decide, by decide, ?_, ?_⟩
  · rintro (h | ⟨-, h | ⟨-, -, h, -⟩⟩)
    · exact absurd h (by decide)
    · exact absurd h (lt_irrefl _)
    · exact Option.noConfusion h (fun hc => by omega)
  · rintro (h | ⟨-, h | ⟨-, -, h, -⟩⟩)
    · exact absurd h (by decide)
    · exact absurd h (lt_irrefl _)
    · exact Option.noConfusion h (fun hc => by omega)

/-- C6 amended: in the responder's full-sync response against a
hash-only request, `key_vals` contains exactly the keys the responder
holds where the key is absent from the initiator's set, or the
responder's value wins (version, then originator, then ttl_version on
content-hash equality), or the comparison is indeterminate (equal
version and originator, hashes unequal or missing); and
`tobe_updated_keys` contains exactly the keys the initiator holds where
the responder lacks the key, or the initiator's record wins, or the
comparison is indeterminate.  Indeterminate keys appear in both. -/
theorem c6_full_sync_response (a : String) (my req : KvMap)
    (hmy : (my.map Prod.fst).Nodup) (hreq : (req.map Prod.fst).Nodup)
    (hho : ∀ p ∈ req, p.2.value = none) (k : String) :
    (∀ w, ((k, w) ∈ (dumpDifference a my req).keyVals ↔
      (kvGet my k = some w ∧
        (kvGet req k = none ∨
          ∃ rv, kvGet req k = some rv ∧ (valueWins w rv ∨ cmpIndeterminate w rv))))) ∧
    (k ∈ ((dumpDifference a my req).tobeUpdatedKeys.getD []) ↔
      ((∃ rv, kvGet req k = some rv) ∧
        (kvGet my k = none ∨
          ∃ mv rv, kvGet my k = some mv ∧ kvGet req k = some rv ∧
            (valueWins rv mv ∨ cmpIndeterminate mv rv)))) := by
  have hnv : ∀ (x : String) (mv rv : TValue), kvGet req x = some rv →
      ¬(mv.value.isSome ∧ rv.value.isSome) := by
    intro x mv rv hr hc
    have hmem : (x, rv) ∈ req := (kvGet_eq_some_iff_mem req x rv hreq).mp hr
    have := hho (x, rv) hmem
    rw [this] at hc
    exact Bool.noConfusion hc.2
  have hka : ∀ x, x ∈ (my.map Prod.fst ++ req.map Prod.fst).dedup ↔
      ((kvGet my x).isSome = true ∨ (kvGet req x).isSome = true) := by
    intro x
    rw [List.mem_dedup, List.mem_append, kvGet_isSome_iff_mem_keys,
      kvGet_isSome_iff_mem_keys]
  constructor
  · intro w
    rw [show (dumpDifference a my req).keyVals =
        ((my.map Prod.fst ++ req.map Prod.fst).dedup).filterMap (fun key =>
          match kvGet my key, kvGet req key with
          | none, _ => none
          | some mv, none => some (key, mv)
          | some mv, some rv =>
            if compareValues mv rv = 1 ∨ compareValues mv rv = -2 then some (key, mv)
            else none) from rfl]
    rw [List.mem_filterMap]
    constructor
    · rintro ⟨x, hx, hfx⟩
      have hxk : x = k := by
        cases hm : kvGet my x with
        | none =>
          cases hr : kvGet req x with
          | none => simp [hm, hr] at hfx
          | some rv => simp [hm, hr] at hfx
        | some mv =>
          cases hr : kvGet req x with
          | none =>
            simp only [hm, hr, Option.some.injEq, Prod.mk.injEq] at hfx
            exact hfx.1
          | some rv =>
            simp only [hm, hr] at hfx
            by_cases hc : compareValues mv rv = 1 ∨ compareValues mv rv = -2
            · rw [if_pos hc] at hfx
              exact congrArg Prod.fst (Option.some.inj hfx)
            · rw [if_neg hc] at hfx
              exact Option.noConfusion hfx
      subst hxk
      cases hm : kvGet my x with
      | none =>
        cases hr : kvGet req x with
        | none => simp [hm, hr] at hfx
        | some rv => simp [hm, hr] at hfx
      | some mv =>
        cases hr : kvGet req x with
        | none =>
          simp only [hm, hr, Option.some.injEq, Prod.mk.injEq, true_and] at hfx
          subst hfx
          exact ⟨rfl, Or.inl rfl⟩
        | some rv =>
          simp only [hm, hr] at hfx
          by_cases hc : compareValues mv rv = 1 ∨ compareValues mv rv = -2
          · rw [if_pos hc] at hfx
            have hw : mv = w := congrArg Prod.snd (Option.some.inj hfx)
            subst hw
            obtain ⟨hc1, -, hc2⟩ := compareValues_cases mv rv (hnv x mv rv hr)
            refine ⟨rfl, Or.inr ⟨rv, rfl, ?_⟩⟩
            rcases hc with hc | hc
            · exact Or.inl (hc1.mp hc)
            · exact Or.inr (hc2.mp hc)
          · rw [if_neg hc] at hfx
            exact Option.noConfusion hfx
    · rintro ⟨hm, hcond⟩
      refine ⟨k, (hka k).mpr (Or.inl (by rw [hm]; rfl)), ?_⟩
      rcases hcond with hr | ⟨rv, hr, hwin⟩
      · simp only [hm, hr]
      · obtain ⟨hc1, -, hc2⟩ := compareValues_cases w rv (hnv k w rv hr)
        have hcnd : compareValues w rv = 1 ∨ compareValues w rv = -2 := by
          rcases hwin with hwin | hwin
          · exact Or.inl (hc1.mpr hwin)
          · exact Or.inr (hc2.mpr hwin)
        simp only [hm, hr, if_pos hcnd]
  · rw [show (dumpDifference a my req).tobeUpdatedKeys =
        some (((my.map Prod.fst ++ req.map Prod.fst).dedup).filter (fun key =>
          match kvGet my key, kvGet req key with
          | none, _ => true
          | some _, none => false
          | some mv, some rv =>
            decide (compareValues mv rv = -1 ∨ compareValues mv rv = -2))) from rfl]
    rw [Option.getD_some, List.mem_filter, hka k]
    constructor
    · rintro ⟨hx, hg⟩
      cases hm : kvGet my k with
      | none =>
        rcases hx with hx | hx
        · rw [hm] at hx
          exact Bool.noConfusion hx
        · cases hr : kvGet req k with
          | none =>
            rw [hr] at hx
            exact Bool.noConfusion hx
          | some rv => exact ⟨⟨rv, rfl⟩, Or.inl rfl⟩
      | some mv =>
        cases hr : kvGet req k with
        | none => simp [hm, hr] at hg
        | some rv =>
          simp only [hm, hr, decide_eq_true_eq] at hg
          obtain ⟨-, hc1, hc2⟩ := compareValues_cases mv rv (hnv k mv rv hr)
          refine ⟨⟨rv, rfl⟩, Or.inr ⟨mv, rv, rfl, rfl, ?_⟩⟩
          rcases hg with hg | hg
          · exact Or.inl (hc1.mp hg)
          · exact Or.inr (hc2.mp hg)
    · rintro ⟨⟨rv, hr⟩, hcond⟩
      refine ⟨Or.inr (by rw [hr]; rfl), ?_⟩
      rcases hcond with hm | ⟨mv, rv2, hm, hr2, hwin⟩
      · simp only [hm]
      · have hrv : rv2 = rv := Option.some.inj (hr2.symm.trans hr)
        subst hrv
        obtain ⟨-, hc1, hc2⟩ := compareValues_cases mv rv2 (hnv k mv rv2 hr2)
        have hcnd : compareValues mv rv2 = -1 ∨ compareValues mv rv2 = -2 := by
          rcases hwin with hwin | hwin
          · exact Or.inl (hc1.mpr hwin)
          · exact Or.inr (hc2.mpr hwin)
        simp only [hm, hr2, decide_eq_true_eq]
        exact hcnd


/-- C6 witness: a concrete responder map and hash-only request, pushed
through `c6_full_sync_response`: the key only the responder holds lands
in key_vals. -/
theorem c6_full_sync_response_witness :
    ("k1", (⟨1, "A", some "x", 10, 0, some 5⟩ : TValue)) ∈
      (dumpDifference "a" [("k1", ⟨1, "A", some "x", 10, 0, some 5⟩)]
        [("k2", ⟨1, "B", none, 10, 0, some 6⟩)]).keyVals :=
  ((c6_full_sync_response "a" [("k1", ⟨1, "A", some "x", 10, 0, some 5⟩)]
      [("k2", ⟨1, "B", none, 10, 0, some 6⟩)] (by decide) (by decide) (by decide) "k1").1
    ⟨1, "A", some "x", 10, 0, some 5⟩).mpr ⟨by decide, Or.inl (by decide)⟩

/-- Every configured area database reports initial sync completed (the
loop at the top of `KvStore::initialKvStoreDbSynced`). -/
def areasAllSynced (s : StoreSyncState) : Bool :=
  s.areas.all (fun a => a.2.initialSyncCompleted)

/-- With no duplicate keys, an association list holds at most one entry
per key. -/
theorem keys_nodup_eq {β : Type} (l : List (String × β))
    (hnd : (l.map Prod.fst).Nodup) (p q : String × β) (hp : p ∈ l) (hq : q ∈ l)
    (hpq : p.1 = q.1) : p = q := by
  induction l with
  | nil => cases hp
  | cons r t ih =>
    simp only [List.map_cons, List.nodup_cons] at hnd
    cases hp with
    | head =>
      cases hq with
      | head => rfl
      | tail _ hq2 =>
        exact absurd (hpq ▸ List.mem_map_of_mem Prod.fst hq2) hnd.1
    | tail _ hp2 =>
      cases hq with
      | head =>
        exact absurd (hpq ▸ List.mem_map_of_mem Prod.fst hp2) (by
          intro hc
          exact hnd.1 hc)
      | tail _ hq2 => exact ih hnd.2 hp2 hq2

/-- The barrier invariant: area keys stay unique, the number of
KVSTORE_SYNCED events published matches the `initialSyncSignalSent_`
flag, and the flag holds exactly when every area has completed. -/
def barrierInv (s : StoreSyncState) : Prop :=
  (s.areas.map Prod.fst).Nodup ∧
  s.syncedEventsPublished = (if s.initialSyncSignalSent then 1 else 0) ∧
  (s.initialSyncSignalSent = true → areasAllSynced s = true) ∧
  (areasAllSynced s = true → s.initialSyncSignalSent = true)

theorem barrierInv_step (s : StoreSyncState) (ev : String × List (String × PeerSyncInfo))
    (h : barrierInv s) : barrierInv (kvStoreSyncStep s ev) := by
  obtain ⟨hnd, hcount, hs1, hs2⟩ := h
  cases hf : s.areas.find? (fun p => p.1 == ev.1) with
  | none =>
    have hstep : kvStoreSyncStep s ev = s := by
      simp only [kvStoreSyncStep, hf]
    rw [hstep]
    exact ⟨hnd, hcount, hs1, hs2⟩
  | some na =>
    obtain ⟨n, a⟩ := na
    have hmem : (n, a) ∈ s.areas := List.mem_of_find?_eq_some hf
    have hstep : kvStoreSyncStep s ev =
        (if a.initialSyncCompleted then
          { s with areas := s.areas.map (fun p =>
              if p.1 == n then (n, { a with peers := ev.2 }) else p) }
         else if (processInitializationEvent { a with peers := ev.2 }).initialSyncCompleted then
           initialKvStoreDbSynced
             { s with areas := s.areas.map (fun p =>
                 if p.1 == n then (n, processInitializationEvent { a with peers := ev.2 })
                 else p) }
         else
           { s with areas := s.areas.map (fun p =>
               if p.1 == n then (n, processInitializationEvent { a with peers := ev.2 })
               else p) }) := by
      simp only [kvStoreSyncStep, hf]
    rw [hstep]
    have hkeys : ∀ (a2 : AreaSyncState),
        (s.areas.map (fun p => if p.1 == n then (n, a2) else p)).map Prod.fst =
          s.areas.map Prod.fst := by
      intro a2
      rw [List.map_map]
      apply List.map_congr_left
      intro p hp
      by_cases hpn : (p.1 == n) = true
      · have hpn2 : p.1 = n := by simpa using hpn
        simp only [Function.comp_apply]
        rw [if_pos hpn]
        exact hpn2.symm
      · simp only [Function.comp_apply]
        rw [if_neg hpn]
    have hallmap : ∀ (a2 : AreaSyncState), a2.initialSyncCompleted = true →
        areasAllSynced s = true →
        (s.areas.map (fun p => if p.1 == n then (n, a2) else p)).all
          (fun a => a.2.initialSyncCompleted) = true := by
      intro a2 ha2 hall
      rw [List.all_map, List.all_eq_true]
      intro p hp
      by_cases hpn : (p.1 == n) = true
      · simp only [Function.comp_apply]
        rw [if_pos hpn]
        exact ha2
      · simp only [Function.comp_apply]
        rw [if_neg hpn]
        exact (List.all_eq_true.mp hall) p hp
    have hallmap2 : ∀ (a2 : AreaSyncState),
        (s.areas.map (fun p => if p.1 == n then (n, a2) else p)).all
          (fun a => a.2.initialSyncCompleted) = true →
        a.initialSyncCompleted = true → areasAllSynced s = true := by
      intro a2 hall ha
      rw [areasAllSynced, List.all_eq_true]
      intro p hp
      by_cases hpn : (p.1 == n) = true
      · have hpn2 : p.1 = n := by simpa using hpn
        have : p = (n, a) := keys_nodup_eq s.areas hnd p (n, a) hp hmem hpn2
        rw [this]
        exact ha
      · have h2 := (List.all_eq_true.mp hall) _ (List.mem_map_of_mem _ hp)
        simp only at h2
        rw [if_neg hpn] at h2
        exact h2
    by_cases hcase : a.initialSyncCompleted = true
    · rw [if_pos hcase]
      refine ⟨by rw [hkeys]; exact hnd, hcount, ?_, ?_⟩
      · intro hsent
        exact hallmap _ hcase (hs1 hsent)
      · intro hall
        exact hs2 (hallmap2 _ hall hcase)
    · rw [if_neg hcase]
      by_cases hdone : (processInitializationEvent { a with peers := ev.2 }).initialSyncCompleted
        = true
      · rw [if_pos hdone]
        unfold initialKvStoreDbSynced
        by_cases hall : ((s.areas.map (fun p =>
            if p.1 == n then (n, processInitializationEvent { a with peers := ev.2 }) else p)).all
              (fun a => a.2.initialSyncCompleted)) = true
        · rw [if_pos hall]
          by_cases hsent : s.initialSyncSignalSent = true
          · exact absurd (List.all_eq_true.mp (hs1 hsent) (n, a) hmem)
              (by simpa using hcase)
          · rw [if_neg hsent]
            refine ⟨by rw [hkeys]; exact hnd, ?_, ?_, ?_⟩
            · rw [hcount, if_neg hsent, if_pos rfl]
            · intro _
              exact hall
            · intro _
              rfl
        · rw [if_neg hall]
          refine ⟨by rw [hkeys]; exact hnd, hcount, ?_, ?_⟩
          · intro hsent
            exact absurd (List.all_eq_true.mp (hs1 hsent) (n, a) hmem) (by simpa using hcase)
          · intro hall2
            exact absurd hall2 hall
      · rw [if_neg hdone]
        refine ⟨by rw [hkeys]; exact hnd, hcount, ?_, ?_⟩
        · intro hsent
          exact absurd (List.all_eq_true.mp (hs1 hsent) (n, a) hmem) (by simpa using hcase)
        · intro hall2
          exfalso
          apply hdone
          have h2 := (List.all_eq_true.mp hall2) _
            (List.mem_map_of_mem (fun p =>
              if p.1 == n then (n, processInitializationEvent { a with peers := ev.2 }) else p)
              hmem)
          simp only at h2
          rw [if_pos (by simp)] at h2
          exact h2

theorem barrierInv_run (s : StoreSyncState)
    (events : List (String × List (String × PeerSyncInfo))) (h : barrierInv s) :
    barrierInv (events.foldl kvStoreSyncStep s) := by
  induction events generalizing s with
  | nil => exact h
  | cons ev rest ih => exact ih _ (barrierInv_step s ev h)

/-- C8: starting from a store with at least one configured area, none
of them initially completed and the KVSTORE_SYNCED signal unsent, any
sequence of peer-event rounds publishes the KVSTORE_SYNCED event at
most once, and it has been published exactly when every configured
area has completed its initial sync; an area completes exactly when
each of its peers is INITIALIZED or has recorded a thrift API error,
an empty peer table completing immediately. -/
theorem c8_kvstore_synced_exactly_once (s0 : StoreSyncState)
    (events : List (String × List (String × PeerSyncInfo)))
    (hnd : (s0.areas.map Prod.fst).Nodup) (hne : s0.areas ≠ [])
    (hflags : ∀ a ∈ s0.areas, a.2.initialSyncCompleted = false)
    (hsent : s0.initialSyncSignalSent = false)
    (hcount : s0.syncedEventsPublished = 0) :
    (events.foldl kvStoreSyncStep s0).syncedEventsPublished ≤ 1 ∧
    ((events.foldl kvStoreSyncStep s0).syncedEventsPublished = 1 ↔
      (events.foldl kvStoreSyncStep s0).areas.all
        (fun a => a.2.initialSyncCompleted) = true) ∧
    (∀ ar : AreaSyncState, (processInitializationEvent ar).initialSyncCompleted =
      (ar.initialSyncCompleted || ar.peers.all (fun p => peerSyncDone p.2))) ∧
    (∀ ar : AreaSyncState, ar.peers = [] →
      (processInitializationEvent ar).initialSyncCompleted = true) := by
  have hinv0 : barrierInv s0 := by
    refine ⟨hnd, by rw [hcount, hsent]; rfl, ?_, ?_⟩
    · intro hc
      rw [hsent] at hc
      exact Bool.noConfusion hc
    · intro hall
      cases ha : s0.areas with
      | nil => exact absurd ha hne
      | cons a0 t =>
        rw [areasAllSynced, ha] at hall
        simp only [List.all_cons, Bool.and_eq_true] at hall
        have := hflags a0 (by rw [ha]; exact List.mem_cons_self _ _)
        rw [this] at hall
        exact Bool.noConfusion hall.1
  obtain ⟨-, hcnt, hi1, hi2⟩ := barrierInv_run s0 events hinv0
  refine ⟨?_, ?_, ?_, ?_⟩
  · rw [hcnt]
    by_cases hsf : (events.foldl kvStoreSyncStep s0).initialSyncSignalSent <;> simp [hsf]
  · rw [hcnt]
    constructor
    · intro hc
      apply hi1
      by_cases hsf : (events.foldl kvStoreSyncStep s0).initialSyncSignalSent
      · exact hsf
      · rw [if_neg hsf] at hc
        exact absurd hc (by omega)
    · intro hall
      rw [hi2 hall]
      rfl
  · intro ar
    unfold processInitializationEvent
    by_cases hp : ar.peers.all (fun p => peerSyncDone p.2) = true
    · rw [if_pos hp, hp, Bool.or_true]
    · rw [if_neg hp]
      have : ar.peers.all (fun p => peerSyncDone p.2) = false := by
        cases hq : ar.peers.all (fun p => peerSyncDone p.2) with
        | false => rfl
        | true => exact absurd hq hp
      rw [this, Bool.or_false]
  · intro ar har
    unfold processInitializationEvent
    rw [if_pos (by rw [har]; rfl)]

/-- C8 witness: one area with one IDLE peer; after the peer reaches
INITIALIZED, exactly one KVSTORE_SYNCED is published and the area is
completed — through `c8_kvstore_synced_exactly_once`. -/
theorem c8_kvstore_synced_exactly_once_witness :
    (([("area1", [("peerB", ⟨KvStorePeerState.INITIALIZED, 0⟩)])].foldl kvStoreSyncStep
      { areas := [("area1", { peers := [("peerB", ⟨KvStorePeerState.IDLE, 0⟩)]
                              initialSyncCompleted := false })]
        initialSyncSignalSent := false
        syncedEventsPublished := 0 }).syncedEventsPublished ≤ 1) ∧
    (([("area1", [("peerB", ⟨KvStorePeerState.INITIALIZED, 0⟩)])].foldl kvStoreSyncStep
      { areas := [("area1", { peers := [("peerB", ⟨KvStorePeerState.IDLE, 0⟩)]
                              initialSyncCompleted := false })]
        initialSyncSignalSent := false
        syncedEventsPublished := 0 }).areas.all
          (fun a => a.2.initialSyncCompleted) = true) :=
  ⟨(c8_kvstore_synced_exactly_once _ [("area1", [("peerB", ⟨KvStorePeerState.INITIALIZED, 0⟩)])]
      (by decide) (by decide) (by decide) rfl rfl).1,
   by decide⟩

end Openr
